import Mathlib

/-!
Verification development for the ParamEditor repository (parameditor.h,
main.cpp, test.h).

The development is a shallow embedding of the parameter-editor core: the
Parameter catalog (one Lean structure per C++ Parameter class, with
apply, reset, save and load mirrored from the member functions), the
ParamsEditor container (tab registration, help tab, the XML scan of
loadFromFile and the serialization of saveToFile, and the APPLY and CANCEL
button handlers), and the AdvancedPropertyAdapter reflection binder.

Toolkit (Qt) controls are modelled at their interface boundary:
a spin box is its range plus a clamped value, a combo box is its item list
plus a current index that becomes -1 when an out-of-range index is set, a
line edit is its text.  Two Qt facts that the source relies on are made
explicit in the model and noted where they are used: setting a style sheet
on a button does not modify the palette that QWidget.palette returns, and
QComboBox.setCurrentIndex with an index outside the item range leaves the
combo with currentIndex -1.

Purely visual aspects (layouts, tooltips, fixed widths, icons, spin-box
step size) are not part of the model.  Real-valued controls
(QDoubleSpinBox) are carried with rational payloads so the catalog is
complete, but no theorem reasons about floating-point formatting.
-/

namespace ParamEditor

/-! ### Decimal text codec

`QString::number(int)` and `QString::toInt()` as used by the save and load
members of the numeric Parameter classes.  `QString::toInt` returns 0 when
the text (after trimming surrounding whitespace) is not an optionally
signed run of decimal digits. -/

/-- Decimal digit to its character. The catch-all branch is unreachable for
base-10 digits. -/
def digitChar : Nat → Char
  | 0 => '0'
  | 1 => '1'
  | 2 => '2'
  | 3 => '3'
  | 4 => '4'
  | 5 => '5'
  | 6 => '6'
  | 7 => '7'
  | 8 => '8'
  | 9 => '9'
  | _ => '*'

/-- Numeric value of a decimal digit character. -/
def digitVal (c : Char) : Nat := c.toNat - 48

/-- Value of a most-significant-first run of decimal digit characters. -/
def decimalVal (cs : List Char) : Nat := cs.foldl (fun a c => 10 * a + digitVal c) 0

/-- Decimal digit characters of a natural number, most significant first. -/
def natDecChars (n : Nat) : List Char :=
  if n = 0 then ['0'] else ((Nat.digits 10 n).map digitChar).reverse

/-- Model of QString::number on int: standard decimal notation. -/
def intToString (i : Int) : String :=
  if i < 0 then ⟨'-' :: natDecChars i.natAbs⟩ else ⟨natDecChars i.natAbs⟩

/-- Whitespace characters skipped by QString::toInt. -/
def isQSpace (c : Char) : Bool := c = ' ' || c = '\t' || c = '\n' || c = '\r'

/-- Strip surrounding whitespace, as QString::toInt does before parsing. -/
def qTrim (cs : List Char) : List Char :=
  ((cs.dropWhile isQSpace).reverse.dropWhile isQSpace).reverse

/-- Split an optional leading sign off a candidate integer literal. -/
def qIntSign (cs : List Char) : Int × List Char :=
  match cs with
  | [] => (1, [])
  | c :: rest =>
    if c = '-' then (-1, rest)
    else if c = '+' then (1, rest)
    else (1, cs)

/-- Whether a string parses as an integer for QString::toInt: after
trimming, an optional sign followed by a nonempty run of digits. -/
def qIntValid (s : String) : Bool :=
  let ds := (qIntSign (qTrim s.toList)).2
  !ds.isEmpty && ds.all Char.isDigit

/-- Model of QString::toInt: the parsed value on a valid integer literal,
and 0 otherwise (Qt reports failure through a bool out-parameter the
source never checks, and returns 0). -/
def qToInt (s : String) : Int :=
  let p := qIntSign (qTrim s.toList)
  if !p.2.isEmpty && p.2.all Char.isDigit then p.1 * (decimalVal p.2 : Int) else 0

theorem digitVal_digitChar {d : Nat} (h : d < 10) : digitVal (digitChar d) = d := by
  interval_cases d <;> decide

theorem isDigit_digitChar {d : Nat} (h : d < 10) : (digitChar d).isDigit = true := by
  interval_cases d <;> decide

theorem foldr_digits_eq_ofDigits (L : List Nat) :
    L.foldr (fun d a => 10 * a + d) 0 = Nat.ofDigits 10 L := by
  induction L with
  | nil => simp [Nat.ofDigits]
  | cons d L ih => simp [Nat.ofDigits, ih]; omega

theorem decimalVal_natDecChars (n : Nat) : decimalVal (natDecChars n) = n := by
  by_cases h0 : n = 0
  · subst h0; decide
  · unfold natDecChars decimalVal
    rw [if_neg h0, List.foldl_reverse]
    have hdig : ∀ d ∈ Nat.digits 10 n, d < 10 := fun d hd =>
      Nat.digits_lt_base (by norm_num) hd
    have : ∀ L : List Nat, (∀ d ∈ L, d < 10) →
        (L.map digitChar).foldr (fun c a => 10 * a + digitVal c) 0 =
        L.foldr (fun d a => 10 * a + d) 0 := by
      intro L
      induction L with
      | nil => intro _; rfl
      | cons d L ih =>
        intro hL
        simp only [List.map_cons, List.foldr_cons]
        rw [ih (fun x hx => hL x (List.mem_cons_of_mem _ hx)),
          digitVal_digitChar (hL d (List.mem_cons_self _ _))]
    rw [this _ hdig, foldr_digits_eq_ofDigits]
    exact_mod_cast Nat.ofDigits_digits 10 n

theorem natDecChars_ne_nil (n : Nat) : natDecChars n ≠ [] := by
  unfold natDecChars
  by_cases h : n = 0
  · simp [h]
  · simp only [if_neg h, ne_eq, List.reverse_eq_nil_iff, List.map_eq_nil_iff]
    exact Nat.digits_ne_nil_iff_ne_zero.mpr h

theorem natDecChars_all_digit (n : Nat) : (natDecChars n).all Char.isDigit = true := by
  unfold natDecChars
  by_cases h : n = 0
  · simp [h]
  · simp only [if_neg h, List.all_eq_true, List.mem_reverse, List.mem_map]
    rintro c ⟨d, hd, rfl⟩
    exact isDigit_digitChar (Nat.digits_lt_base (by norm_num) hd)

theorem not_isQSpace_of_isDigit {c : Char} (h : c.isDigit = true) : isQSpace c = false := by
  unfold isQSpace
  simp only [Bool.or_eq_false_iff, decide_eq_false_iff_not]
  refine ⟨⟨⟨?_, ?_⟩, ?_⟩, ?_⟩ <;> intro he <;> rw [he] at h <;> exact absurd h (by decide)

theorem dropWhile_eq_self_of_false {p : Char → Bool} {l : List Char}
    (h : ∀ c ∈ l, p c = false) : l.dropWhile p = l := by
  cases l with
  | nil => rfl
  | cons a t =>
    rw [List.dropWhile_cons, h a (List.mem_cons_self _ _)]
    simp

theorem qTrim_eq_self {cs : List Char} (h : ∀ c ∈ cs, isQSpace c = false) :
    qTrim cs = cs := by
  unfold qTrim
  rw [dropWhile_eq_self_of_false h,
    dropWhile_eq_self_of_false (fun c hc => h c (List.mem_reverse.mp hc)),
    List.reverse_reverse]

theorem toList_mk (l : List Char) : String.toList ⟨l⟩ = l := rfl

/-- Round trip of the decimal codec: loading back the exact text that
QString::number produced recovers the integer. -/
theorem qToInt_intToString (i : Int) : qToInt (intToString i) = i := by
  have hall : ∀ c ∈ natDecChars i.natAbs, isQSpace c = false := by
    intro c hc
    have := natDecChars_all_digit i.natAbs
    rw [List.all_eq_true] at this
    exact not_isQSpace_of_isDigit (this c hc)
  have hne : ¬(natDecChars i.natAbs).isEmpty = true := by
    simp [List.isEmpty_iff, natDecChars_ne_nil]
  have hval : decimalVal (natDecChars i.natAbs) = i.natAbs := decimalVal_natDecChars _
  have hdigits := natDecChars_all_digit i.natAbs
  by_cases hneg : i < 0
  · have hhead : ∀ c ∈ ('-' :: natDecChars i.natAbs), isQSpace c = false := by
      intro c hc
      rcases List.mem_cons.mp hc with h | h
      · subst h; decide
      · exact hall c h
    unfold qToInt intToString
    rw [if_pos hneg, toList_mk, qTrim_eq_self hhead]
    have hsign : qIntSign ('-' :: natDecChars i.natAbs) = (-1, natDecChars i.natAbs) := by
      unfold qIntSign; simp
    rw [hsign]
    simp only [hne, not_false_eq_true, Bool.not_eq_true, List.isEmpty_iff, hdigits,
      Bool.not_true, Bool.true_and, if_pos]
    rw [if_pos (by simp [List.isEmpty_iff, natDecChars_ne_nil, hdigits])]
    rw [hval]
    omega
  · unfold qToInt intToString
    rw [if_neg hneg, toList_mk, qTrim_eq_self hall]
    have hsign : qIntSign (natDecChars i.natAbs) = (1, natDecChars i.natAbs) := by
      unfold qIntSign
      rcases hcs : natDecChars i.natAbs with _ | ⟨c, rest⟩
      · exact absurd hcs (natDecChars_ne_nil _)
      · have hcdig : c.isDigit = true := by
          have := natDecChars_all_digit i.natAbs
          rw [hcs, List.all_cons, Bool.and_eq_true] at this
          exact this.1
        have hc1 : ¬c = '-' := by
          intro he; subst he; revert hcdig; decide
        have hc2 : ¬c = '+' := by
          intro he; subst he; revert hcdig; decide
        simp [hc1, hc2]
    rw [hsign]
    rw [if_pos (by simp [List.isEmpty_iff, natDecChars_ne_nil, hdigits])]
    rw [hval]
    omega

/-- When the text does not parse as an integer, QString::toInt yields 0. -/
theorem qToInt_of_invalid {s : String} (h : qIntValid s = false) : qToInt s = 0 := by
  unfold qIntValid at h
  unfold qToInt
  rw [if_neg]
  intro hc
  rw [h] at hc
  exact Bool.false_ne_true hc

/-! ### Toolkit control models

Each control is modelled by the state the Parameter code observes and
mutates through the Qt interface. -/

/-- Attribute lookup on an XML element: QXmlStreamAttributes.value returns
the first attribute with the given name; hasAttribute tests presence. -/
def attrValue (attrs : List (String × String)) (k : String) : Option String :=
  match attrs with
  | [] => none
  | (a, v) :: rest => if a = k then some v else attrValue rest k

/-- QSpinBox: an integer range and a value; setValue clamps into the
range (qBound). Step size and alignment are visual only. -/
structure QSpinBoxM where
  lo : Int
  hi : Int
  val : Int
deriving DecidableEq, Repr

def QSpinBoxM.setValue (s : QSpinBoxM) (v : Int) : QSpinBoxM :=
  { s with val := max s.lo (min s.hi v) }

/-- A spin box constructed with setRange(lo, hi) then setValue(v). -/
def mkSpin (lo hi v : Int) : QSpinBoxM := QSpinBoxM.setValue ⟨lo, hi, 0⟩ v

/-- QDoubleSpinBox, carried with a rational payload: the clamping of
setValue is modelled, rounding to the decimals setting and the underlying
floating-point representation are not, and no theorem relies on them. -/
structure QDoubleSpinBoxM where
  lo : Rat
  hi : Rat
  val : Rat
deriving DecidableEq, Repr

def QDoubleSpinBoxM.setValue (s : QDoubleSpinBoxM) (v : Rat) : QDoubleSpinBoxM :=
  { s with val := max s.lo (min s.hi v) }

def mkDoubleSpin (lo hi v : Rat) : QDoubleSpinBoxM := QDoubleSpinBoxM.setValue ⟨lo, hi, 0⟩ v

/-- QComboBox (non-editable): item list plus current index. Inserting
items into an empty combo selects the first one; setCurrentIndex with an
index outside the item range leaves the combo with currentIndex -1 (the
Qt model yields an invalid index, clearing the selection). -/
structure QComboBoxM where
  items : List String
  currentIndex : Int
deriving DecidableEq, Repr

def QComboBoxM.addItems (c : QComboBoxM) (its : List String) : QComboBoxM :=
  { items := c.items ++ its
    currentIndex :=
      if c.items.isEmpty && !its.isEmpty && c.currentIndex == -1 then 0 else c.currentIndex }

def QComboBoxM.setCurrentIndex (c : QComboBoxM) (i : Int) : QComboBoxM :=
  { c with currentIndex := if 0 ≤ i ∧ i < (c.items.length : Int) then i else -1 }

/-- Editable QComboBox as used by StringListParam: item list plus the text
of its line edit. clear empties both; addItems into an empty combo
selects (and displays) the first inserted item. -/
structure QEditComboM where
  items : List String
  text : String
deriving DecidableEq, Repr

def QEditComboM.clear (_ : QEditComboM) : QEditComboM := ⟨[], ""⟩

def QEditComboM.addItems (c : QEditComboM) (its : List String) : QEditComboM :=
  { items := c.items ++ its
    text :=
      if c.items.isEmpty then
        match its with
        | [] => c.text
        | x :: _ => x
      else c.text }

/-- QColor, identified by the string it was constructed from. Name
normalization (QColor::name producing a hex form) is not modelled;
equality of the model stands for equality of the colors. -/
structure QColorM where
  spec : String
deriving DecidableEq, Repr

/-- The button palette color a freshly constructed QPushButton reports:
QWidget.palette is inherited from the application style and is never
modified by ColorParam (setStyleSheet does not touch the palette). -/
def defaultButtonPalette : QColorM := ⟨"#d4d0c8"⟩

/-- Calendar date as held by a QDateEdit. -/
structure DateM where
  y : Int
  m : Int
  d : Int
deriving DecidableEq, Repr

def isLeapYear (y : Int) : Bool := (y % 4 == 0 && y % 100 != 0) || y % 400 == 0

def daysInMonth (y m : Int) : Int :=
  if m = 2 then (if isLeapYear y then 29 else 28)
  else if m = 4 ∨ m = 6 ∨ m = 9 ∨ m = 11 then 30
  else 31

/-- QDate validity for a year-month-day triple (proleptic Gregorian;
year-range limits and the historical year zero are outside the modelled
domain). -/
def DateM.isValid (dt : DateM) : Bool :=
  1 ≤ dt.m && dt.m ≤ 12 && 1 ≤ dt.d && dt.d ≤ daysInMonth dt.y dt.m

/-- Left-pad the decimal digits of n with zeros to the given width. -/
def padDec (width n : Nat) : List Char :=
  List.replicate (width - (natDecChars n).length) '0' ++ natDecChars n

/-- QDate::toString(Qt::ISODate): yyyy-MM-dd (modelled for the
nonnegative four-digit years the editor works with). -/
def dateToISO (dt : DateM) : String :=
  ⟨padDec 4 dt.y.toNat ++ '-' :: padDec 2 dt.m.toNat ++ '-' :: padDec 2 dt.d.toNat⟩

/-- QDate::fromString(s, Qt::ISODate) followed by the isValid check the
source performs: the result is some date only for a well-formed
yyyy-MM-dd string denoting a valid calendar date. -/
def qDateFromISO (s : String) : Option DateM :=
  match s.toList with
  | [y1, y2, y3, y4, c1, m1, m2, c2, d1, d2] =>
    if c1 = '-' && c2 = '-'
        && [y1, y2, y3, y4, m1, m2, d1, d2].all Char.isDigit then
      let dt : DateM :=
        ⟨(decimalVal [y1, y2, y3, y4] : Int), (decimalVal [m1, m2] : Int),
          (decimalVal [d1, d2] : Int)⟩
      if dt.isValid then some dt else none
    else none
  | _ => none

/-- Time of day as held by a QTimeEdit. -/
structure TimeM where
  h : Int
  mi : Int
  s : Int
deriving DecidableEq, Repr

def TimeM.isValid (t : TimeM) : Bool :=
  0 ≤ t.h && t.h < 24 && 0 ≤ t.mi && t.mi < 60 && 0 ≤ t.s && t.s < 60

/-- QTime::toString(Qt::ISODate): hh:mm:ss. -/
def timeToISO (t : TimeM) : String :=
  ⟨padDec 2 t.h.toNat ++ ':' :: padDec 2 t.mi.toNat ++ ':' :: padDec 2 t.s.toNat⟩

/-- QTime::fromString(s, Qt::ISODate) followed by the isValid check. -/
def qTimeFromISO (s : String) : Option TimeM :=
  match s.toList with
  | [h1, h2, c1, m1, m2, c2, s1, s2] =>
    if c1 = ':' && c2 = ':' && [h1, h2, m1, m2, s1, s2].all Char.isDigit then
      let t : TimeM := ⟨(decimalVal [h1, h2] : Int), (decimalVal [m1, m2] : Int),
        (decimalVal [s1, s2] : Int)⟩
      if t.isValid then some t else none
    else none
  | _ => none

/-- Split a character list at commas (helper for QString::split). -/
def splitCommaChars (acc : List Char) : List Char → List String
  | [] => [⟨acc.reverse⟩]
  | c :: rest =>
    if c = ',' then ⟨acc.reverse⟩ :: splitCommaChars [] rest
    else splitCommaChars (c :: acc) rest

/-- QString::split(",", Qt::SkipEmptyParts): split at commas and drop the
empty parts. -/
def qSplitSkipEmpty (s : String) : List String :=
  (splitCommaChars [] s.toList).filter (fun x => x != "")

/-- QString::toDouble as a stub: integer literals parse to their value and
everything else to 0.  The fractional and exponent forms Qt accepts, and
the floating-point representation, are not modelled; no theorem evaluates
this on such text. -/
def qToDouble (s : String) : Rat := (qToInt s : Rat)

/-- QString::number(double) as a stub for integral values; the
6-significant-digit floating-point rendering is not modelled and no
theorem evaluates this function. -/
def qNumberDouble (x : Rat) : String :=
  if x.den = 1 then intToString x.num else intToString x.num ++ "?"

/-- QPoint. -/
structure QPointM where
  x : Int
  y : Int
deriving DecidableEq, Repr

/-- QSize. -/
structure QSizeM where
  w : Int
  h : Int
deriving DecidableEq, Repr

/-- QRect. -/
structure QRectM where
  x : Int
  y : Int
  w : Int
  h : Int
deriving DecidableEq, Repr

/-- INT_MIN on the 32-bit int the spin boxes range over. -/
def intMin : Int := -2147483648

/-- INT_MAX. -/
def intMax : Int := 2147483647

/-! ### Parameter catalog

One structure per concrete Parameter class of parameditor.h.  The field
`ptr` holds the value stored in the externally owned slot the C++ object
points to; `defVal` is the default snapshot the class keeps; the
remaining fields are the state of the editor control the Parameter owns.
`init` mirrors the C++ constructor, and apply, reset, save and load
mirror the member functions (save returns the element tag and attribute
list the QXmlStreamWriter calls emit; load receives the attribute list of
the reader's current token).  PasswordParam is StringParam with a hidden
echo mode and is not modelled separately; DateTimeParam combines the
DateParam and TimeParam codecs and is omitted from the embedding. -/

/-- DoubleParam. -/
structure DoubleParam where
  name : String
  ptr : Rat
  defVal : Rat
  spin : QDoubleSpinBoxM
deriving DecidableEq, Repr

def DoubleParam.init (name : String) (p lo hi : Rat) : DoubleParam :=
  { name, ptr := p, defVal := p, spin := mkDoubleSpin lo hi p }

def DoubleParam.apply (pa : DoubleParam) : DoubleParam := { pa with ptr := pa.spin.val }

def DoubleParam.save (pa : DoubleParam) : String × List (String × String) :=
  (pa.name, [("value", qNumberDouble pa.spin.val)])

def DoubleParam.load (pa : DoubleParam) (attrs : List (String × String)) : DoubleParam :=
  match attrValue attrs "value" with
  | some s => { pa with spin := pa.spin.setValue (qToDouble s) }
  | none => pa

/-- IntParam. -/
structure IntParam where
  name : String
  ptr : Int
  defVal : Int
  spin : QSpinBoxM
deriving DecidableEq, Repr

def IntParam.init (name : String) (p lo hi : Int) : IntParam :=
  { name, ptr := p, defVal := p, spin := mkSpin lo hi p }

def IntParam.apply (pa : IntParam) : IntParam := { pa with ptr := pa.spin.val }

def IntParam.save (pa : IntParam) : String × List (String × String) :=
  (pa.name, [("value", intToString pa.spin.val)])

def IntParam.load (pa : IntParam) (attrs : List (String × String)) : IntParam :=
  match attrValue attrs "value" with
  | some s => { pa with spin := pa.spin.setValue (qToInt s) }
  | none => pa

/-- User interaction with the spin box (typing or arrows): the control
clamps into its range. -/
def IntParam.userSet (pa : IntParam) (v : Int) : IntParam :=
  { pa with spin := pa.spin.setValue v }

/-- StringParam (also the base of PasswordParam).  Note the constructor
stores the separately passed def argument as the default, not the value
the slot holds. -/
structure StringParam where
  name : String
  ptr : String
  defVal : String
  edit : String
deriving DecidableEq, Repr

def StringParam.init (name p def0 : String) : StringParam :=
  { name, ptr := p, defVal := def0, edit := p }

def StringParam.apply (pa : StringParam) : StringParam := { pa with ptr := pa.edit }

def StringParam.save (pa : StringParam) : String × List (String × String) :=
  (pa.name, [("value", pa.edit)])

def StringParam.load (pa : StringParam) (attrs : List (String × String)) : StringParam :=
  match attrValue attrs "value" with
  | some s => { pa with edit := s }
  | none => pa

/-- User typing into the line edit. -/
def StringParam.userSet (pa : StringParam) (s : String) : StringParam := { pa with edit := s }

/-- ComboParam: selection by index from an externally owned option list. -/
structure ComboParam where
  name : String
  options : List String
  ptr : Int
  defVal : Int
  combo : QComboBoxM
deriving DecidableEq, Repr

def ComboParam.init (name : String) (opts : List String) (p defIndex : Int) : ComboParam :=
  { name, options := opts, ptr := p, defVal := defIndex
    combo := (QComboBoxM.addItems ⟨[], -1⟩ opts).setCurrentIndex p }

def ComboParam.apply (pa : ComboParam) : ComboParam := { pa with ptr := pa.combo.currentIndex }

def ComboParam.save (pa : ComboParam) : String × List (String × String) :=
  (pa.name, [("index", intToString pa.combo.currentIndex)])

def ComboParam.load (pa : ComboParam) (attrs : List (String × String)) : ComboParam :=
  match attrValue attrs "index" with
  | some s => { pa with combo := pa.combo.setCurrentIndex (qToInt s) }
  | none => pa

/-- ColorParam.  The button shows its color through a style sheet
(updateButton); the palette the button reports is never modified, so
btnPalette stays at its construction-time value while btnStyle tracks the
displayed color.  apply and save read the palette, not the style sheet. -/
structure ColorParam where
  name : String
  ptr : QColorM
  defVal : QColorM
  btnStyle : QColorM
  btnPalette : QColorM
deriving DecidableEq, Repr

def ColorParam.init (name : String) (p def0 : QColorM) : ColorParam :=
  { name, ptr := p, defVal := def0, btnStyle := p, btnPalette := defaultButtonPalette }

def ColorParam.apply (pa : ColorParam) : ColorParam := { pa with ptr := pa.btnPalette }

def ColorParam.save (pa : ColorParam) : String × List (String × String) :=
  (pa.name, [("color", pa.btnPalette.spec)])

def ColorParam.load (pa : ColorParam) (attrs : List (String × String)) : ColorParam :=
  match attrValue attrs "color" with
  | some s => { pa with btnStyle := ⟨s⟩ }
  | none => pa

/-- The clicked handler connected in the constructor: the color dialog
returns either a valid color (some c, after which the handler updates the
style sheet and writes the externally owned slot immediately) or an
invalid one (none, when the user dismisses the dialog). -/
def ColorParam.clicked (pa : ColorParam) (dialog : Option QColorM) : ColorParam :=
  match dialog with
  | some c => { pa with btnStyle := c, ptr := c }
  | none => pa

/-- FilePathParam. -/
structure FilePathParam where
  name : String
  ptr : String
  defVal : String
  edit : String
deriving DecidableEq, Repr

def FilePathParam.init (name p def0 : String) : FilePathParam :=
  { name, ptr := p, defVal := def0, edit := p }

def FilePathParam.apply (pa : FilePathParam) : FilePathParam := { pa with ptr := pa.edit }

def FilePathParam.save (pa : FilePathParam) : String × List (String × String) :=
  (pa.name, [("path", pa.edit)])

def FilePathParam.load (pa : FilePathParam) (attrs : List (String × String)) : FilePathParam :=
  match attrValue attrs "path" with
  | some s => { pa with edit := s }
  | none => pa

/-- onBrowseClicked: the chooser result overwrites the text unless empty. -/
def FilePathParam.onBrowse (pa : FilePathParam) (file : String) : FilePathParam :=
  if file = "" then pa else { pa with edit := file }

/-- DirParam. -/
structure DirParam where
  name : String
  ptr : String
  defVal : String
  edit : String
deriving DecidableEq, Repr

def DirParam.init (name p def0 : String) : DirParam :=
  { name, ptr := p, defVal := def0, edit := p }

def DirParam.apply (pa : DirParam) : DirParam := { pa with ptr := pa.edit }

def DirParam.save (pa : DirParam) : String × List (String × String) :=
  (pa.name, [("path", pa.edit)])

def DirParam.load (pa : DirParam) (attrs : List (String × String)) : DirParam :=
  match attrValue attrs "path" with
  | some s => { pa with edit := s }
  | none => pa

def DirParam.onBrowse (pa : DirParam) (dir : String) : DirParam :=
  if dir = "" then pa else { pa with edit := dir }

/-- BoolParam.  The constructor stores the def argument as default while
the check box shows the slot value. -/
structure BoolParam where
  name : String
  ptr : Bool
  defVal : Bool
  check : Bool
deriving DecidableEq, Repr

def BoolParam.init (name : String) (p def0 : Bool) : BoolParam :=
  { name, ptr := p, defVal := def0, check := p }

def BoolParam.apply (pa : BoolParam) : BoolParam := { pa with ptr := pa.check }

def BoolParam.save (pa : BoolParam) : String × List (String × String) :=
  (pa.name, [("value", if pa.check then "true" else "false")])

def BoolParam.load (pa : BoolParam) (attrs : List (String × String)) : BoolParam :=
  match attrValue attrs "value" with
  | some s => { pa with check := s == "true" }
  | none => pa

/-- User toggling the check box. -/
def BoolParam.userSet (pa : BoolParam) (b : Bool) : BoolParam := { pa with check := b }

/-- FontParam; QFont is modelled by its description string (toString and
fromString are inverse on it). Unlike ColorParam, the class keeps the
chosen font in a member, so apply writes the displayed choice. -/
structure FontParam where
  name : String
  ptr : String
  defVal : String
  currentFont : String
deriving DecidableEq, Repr

def FontParam.init (name p def0 : String) : FontParam :=
  { name, ptr := p, defVal := def0, currentFont := p }

def FontParam.apply (pa : FontParam) : FontParam := { pa with ptr := pa.currentFont }

def FontParam.save (pa : FontParam) : String × List (String × String) :=
  (pa.name, [("value", pa.currentFont)])

def FontParam.load (pa : FontParam) (attrs : List (String × String)) : FontParam :=
  match attrValue attrs "value" with
  | some s => { pa with currentFont := s }
  | none => pa

/-- RangeParam: a pair of double spin boxes. -/
structure RangeParam where
  name : String
  ptr : Rat × Rat
  defVal : Rat × Rat
  minSpin : QDoubleSpinBoxM
  maxSpin : QDoubleSpinBoxM
deriving DecidableEq, Repr

def RangeParam.init (name : String) (p : Rat × Rat) (globalMin globalMax : Rat)
    (def0 : Rat × Rat) : RangeParam :=
  { name, ptr := p, defVal := def0
    minSpin := mkDoubleSpin globalMin globalMax p.1
    maxSpin := mkDoubleSpin globalMin globalMax p.2 }

def RangeParam.apply (pa : RangeParam) : RangeParam :=
  { pa with ptr := (pa.minSpin.val, pa.maxSpin.val) }

def RangeParam.save (pa : RangeParam) : String × List (String × String) :=
  (pa.name, [("min", qNumberDouble pa.minSpin.val), ("max", qNumberDouble pa.maxSpin.val)])

def RangeParam.load (pa : RangeParam) (attrs : List (String × String)) : RangeParam :=
  match attrValue attrs "min", attrValue attrs "max" with
  | some smin, some smax =>
    { pa with minSpin := pa.minSpin.setValue (qToDouble smin)
              maxSpin := pa.maxSpin.setValue (qToDouble smax) }
  | _, _ => pa

/-- StringListParam: an editable combo whose current text is split at
commas by apply and load. -/
structure StringListParam where
  name : String
  ptr : List String
  defVal : List String
  combo : QEditComboM
deriving DecidableEq, Repr

def StringListParam.init (name : String) (p def0 : List String) : StringListParam :=
  { name, ptr := p, defVal := def0, combo := QEditComboM.addItems ⟨[], ""⟩ p }

def StringListParam.apply (pa : StringListParam) : StringListParam :=
  { pa with ptr := qSplitSkipEmpty pa.combo.text }

def StringListParam.save (pa : StringListParam) : String × List (String × String) :=
  (pa.name, [("value", pa.combo.text)])

def StringListParam.load (pa : StringListParam) (attrs : List (String × String)) :
    StringListParam :=
  match attrValue attrs "value" with
  | some s => { pa with combo := (pa.combo.clear).addItems (qSplitSkipEmpty s) }
  | none => pa

/-- DateParam. -/
structure DateParam where
  name : String
  ptr : DateM
  defVal : DateM
  dateEdit : DateM
deriving DecidableEq, Repr

def DateParam.init (name : String) (p def0 : DateM) : DateParam :=
  { name, ptr := p, defVal := def0, dateEdit := p }

def DateParam.apply (pa : DateParam) : DateParam := { pa with ptr := pa.dateEdit }

def DateParam.save (pa : DateParam) : String × List (String × String) :=
  (pa.name, [("value", dateToISO pa.dateEdit)])

def DateParam.load (pa : DateParam) (attrs : List (String × String)) : DateParam :=
  match attrValue attrs "value" with
  | some s =>
    match qDateFromISO s with
    | some dt => { pa with dateEdit := dt }
    | none => pa
  | none => pa

/-- TimeParam. -/
structure TimeParam where
  name : String
  ptr : TimeM
  defVal : TimeM
  timeEdit : TimeM
deriving DecidableEq, Repr

def TimeParam.init (name : String) (p def0 : TimeM) : TimeParam :=
  { name, ptr := p, defVal := def0, timeEdit := p }

def TimeParam.apply (pa : TimeParam) : TimeParam := { pa with ptr := pa.timeEdit }

def TimeParam.save (pa : TimeParam) : String × List (String × String) :=
  (pa.name, [("value", timeToISO pa.timeEdit)])

def TimeParam.load (pa : TimeParam) (attrs : List (String × String)) : TimeParam :=
  match attrValue attrs "value" with
  | some s =>
    match qTimeFromISO s with
    | some t => { pa with timeEdit := t }
    | none => pa
  | none => pa

/-- PointParam: two spin boxes ranging over the full int range. -/
structure PointParam where
  name : String
  ptr : QPointM
  defVal : QPointM
  xSpin : QSpinBoxM
  ySpin : QSpinBoxM
deriving DecidableEq, Repr

def PointParam.init (name : String) (p def0 : QPointM) : PointParam :=
  { name, ptr := p, defVal := def0
    xSpin := mkSpin intMin intMax p.x, ySpin := mkSpin intMin intMax p.y }

def PointParam.apply (pa : PointParam) : PointParam :=
  { pa with ptr := ⟨pa.xSpin.val, pa.ySpin.val⟩ }

def PointParam.save (pa : PointParam) : String × List (String × String) :=
  (pa.name, [("x", intToString pa.xSpin.val), ("y", intToString pa.ySpin.val)])

def PointParam.load (pa : PointParam) (attrs : List (String × String)) : PointParam :=
  match attrValue attrs "x", attrValue attrs "y" with
  | some sx, some sy =>
    { pa with xSpin := pa.xSpin.setValue (qToInt sx), ySpin := pa.ySpin.setValue (qToInt sy) }
  | _, _ => pa

/-- SizeParam: width and height spin boxes with nonnegative range. -/
structure SizeParam where
  name : String
  ptr : QSizeM
  defVal : QSizeM
  widthSpin : QSpinBoxM
  heightSpin : QSpinBoxM
deriving DecidableEq, Repr

def SizeParam.init (name : String) (p def0 : QSizeM) : SizeParam :=
  { name, ptr := p, defVal := def0
    widthSpin := mkSpin 0 intMax p.w, heightSpin := mkSpin 0 intMax p.h }

def SizeParam.apply (pa : SizeParam) : SizeParam :=
  { pa with ptr := ⟨pa.widthSpin.val, pa.heightSpin.val⟩ }

def SizeParam.save (pa : SizeParam) : String × List (String × String) :=
  (pa.name, [("width", intToString pa.widthSpin.val),
    ("height", intToString pa.heightSpin.val)])

def SizeParam.load (pa : SizeParam) (attrs : List (String × String)) : SizeParam :=
  match attrValue attrs "width", attrValue attrs "height" with
  | some sw, some sh =>
    { pa with widthSpin := pa.widthSpin.setValue (qToInt sw)
              heightSpin := pa.heightSpin.setValue (qToInt sh) }
  | _, _ => pa

/-- RectParam: four spin boxes. -/
structure RectParam where
  name : String
  ptr : QRectM
  defVal : QRectM
  xSpin : QSpinBoxM
  ySpin : QSpinBoxM
  widthSpin : QSpinBoxM
  heightSpin : QSpinBoxM
deriving DecidableEq, Repr

def RectParam.init (name : String) (p def0 : QRectM) : RectParam :=
  { name, ptr := p, defVal := def0
    xSpin := mkSpin intMin intMax p.x, ySpin := mkSpin intMin intMax p.y
    widthSpin := mkSpin 0 intMax p.w, heightSpin := mkSpin 0 intMax p.h }

def RectParam.apply (pa : RectParam) : RectParam :=
  { pa with ptr := ⟨pa.xSpin.val, pa.ySpin.val, pa.widthSpin.val, pa.heightSpin.val⟩ }

def RectParam.save (pa : RectParam) : String × List (String × String) :=
  (pa.name, [("x", intToString pa.xSpin.val), ("y", intToString pa.ySpin.val),
    ("width", intToString pa.widthSpin.val), ("height", intToString pa.heightSpin.val)])

def RectParam.load (pa : RectParam) (attrs : List (String × String)) : RectParam :=
  match attrValue attrs "x", attrValue attrs "y",
      attrValue attrs "width", attrValue attrs "height" with
  | some sx, some sy, some sw, some sh =>
    { pa with xSpin := pa.xSpin.setValue (qToInt sx), ySpin := pa.ySpin.setValue (qToInt sy)
              widthSpin := pa.widthSpin.setValue (qToInt sw)
              heightSpin := pa.heightSpin.setValue (qToInt sh) }
  | _, _, _, _ => pa

/-- VariantParam: the QVariant is modelled through the string form the
line edit shows and apply stores back. -/
structure VariantParam where
  name : String
  ptr : String
  defVal : String
  edit : String
deriving DecidableEq, Repr

def VariantParam.init (name p def0 : String) : VariantParam :=
  { name, ptr := p, defVal := def0, edit := p }

def VariantParam.apply (pa : VariantParam) : VariantParam := { pa with ptr := pa.edit }

def VariantParam.save (pa : VariantParam) : String × List (String × String) :=
  (pa.name, [("value", pa.edit)])

def VariantParam.load (pa : VariantParam) (attrs : List (String × String)) : VariantParam :=
  match attrValue attrs "value" with
  | some s => { pa with edit := s }
  | none => pa

/-- FloatParam, carried like DoubleParam with a rational payload. -/
structure FloatParam where
  name : String
  ptr : Rat
  defVal : Rat
  spin : QDoubleSpinBoxM
deriving DecidableEq, Repr

def FloatParam.init (name : String) (p lo hi : Rat) : FloatParam :=
  { name, ptr := p, defVal := p, spin := mkDoubleSpin lo hi p }

def FloatParam.apply (pa : FloatParam) : FloatParam := { pa with ptr := pa.spin.val }

def FloatParam.save (pa : FloatParam) : String × List (String × String) :=
  (pa.name, [("value", qNumberDouble pa.spin.val)])

def FloatParam.load (pa : FloatParam) (attrs : List (String × String)) : FloatParam :=
  match attrValue attrs "value" with
  | some s => { pa with spin := pa.spin.setValue (qToDouble s) }
  | none => pa

/-! ### The ParamBase interface: virtual dispatch over the catalog -/

/-- A registered Parameter: the sum of the modelled catalog, standing for
a ParamBase pointer.  The virtual apply, reset, save and load dispatch on
the variant. -/
inductive Param where
  | double (p : DoubleParam)
  | int (p : IntParam)
  | string (p : StringParam)
  | combo (p : ComboParam)
  | color (p : ColorParam)
  | filePath (p : FilePathParam)
  | dir (p : DirParam)
  | bool (p : BoolParam)
  | font (p : FontParam)
  | range (p : RangeParam)
  | stringList (p : StringListParam)
  | date (p : DateParam)
  | time (p : TimeParam)
  | point (p : PointParam)
  | size (p : SizeParam)
  | rect (p : RectParam)
  | variant (p : VariantParam)
  | float (p : FloatParam)
deriving DecidableEq, Repr

def Param.name : Param → String
  | .double p => p.name
  | .int p => p.name
  | .string p => p.name
  | .combo p => p.name
  | .color p => p.name
  | .filePath p => p.name
  | .dir p => p.name
  | .bool p => p.name
  | .font p => p.name
  | .range p => p.name
  | .stringList p => p.name
  | .date p => p.name
  | .time p => p.name
  | .point p => p.name
  | .size p => p.name
  | .rect p => p.name
  | .variant p => p.name
  | .float p => p.name

def Param.apply : Param → Param
  | .double p => .double p.apply
  | .int p => .int p.apply
  | .string p => .string p.apply
  | .combo p => .combo p.apply
  | .color p => .color p.apply
  | .filePath p => .filePath p.apply
  | .dir p => .dir p.apply
  | .bool p => .bool p.apply
  | .font p => .font p.apply
  | .range p => .range p.apply
  | .stringList p => .stringList p.apply
  | .date p => .date p.apply
  | .time p => .time p.apply
  | .point p => .point p.apply
  | .size p => .size p.apply
  | .rect p => .rect p.apply
  | .variant p => .variant p.apply
  | .float p => .float p.apply

def Param.save : Param → String × List (String × String)
  | .double p => p.save
  | .int p => p.save
  | .string p => p.save
  | .combo p => p.save
  | .color p => p.save
  | .filePath p => p.save
  | .dir p => p.save
  | .bool p => p.save
  | .font p => p.save
  | .range p => p.save
  | .stringList p => p.save
  | .date p => p.save
  | .time p => p.save
  | .point p => p.save
  | .size p => p.save
  | .rect p => p.save
  | .variant p => p.save
  | .float p => p.save

def Param.loadAttrs : Param → List (String × String) → Param
  | .double p, a => .double (p.load a)
  | .int p, a => .int (p.load a)
  | .string p, a => .string (p.load a)
  | .combo p, a => .combo (p.load a)
  | .color p, a => .color (p.load a)
  | .filePath p, a => .filePath (p.load a)
  | .dir p, a => .dir (p.load a)
  | .bool p, a => .bool (p.load a)
  | .font p, a => .font (p.load a)
  | .range p, a => .range (p.load a)
  | .stringList p, a => .stringList (p.load a)
  | .date p, a => .date (p.load a)
  | .time p, a => .time (p.load a)
  | .point p, a => .point (p.load a)
  | .size p, a => .size (p.load a)
  | .rect p, a => .rect (p.load a)
  | .variant p, a => .variant (p.load a)
  | .float p, a => .float (p.load a)

/-- Delivery of a color-dialog interaction to a Parameter: only a
ColorParam has the clicked handler. -/
def Param.colorClicked (dialog : Option QColorM) : Param → Param
  | .color p => .color (p.clicked dialog)
  | q => q

/-! ### XML stream model

A persisted document is its token stream (the lexing QXmlStreamReader
performs on the raw bytes is Qt internals outside the model).  The reader
holds the token most recently produced by readNext plus the remaining
stream. -/

inductive XmlToken where
  | noToken
  | startDocument
  | startElement (tag : String) (attrs : List (String × String))
  | endElement (tag : String)
  | characters (text : String)
  | endDocument
deriving DecidableEq, Repr

structure XmlReader where
  current : XmlToken
  rest : List XmlToken
deriving DecidableEq, Repr

/-- readNext: consume the next token (past the end it keeps producing no
token; the scan loop never reaches that state). -/
def XmlReader.readNext (r : XmlReader) : XmlReader :=
  match r.rest with
  | [] => { current := .noToken, rest := [] }
  | t :: ts => { current := t, rest := ts }

/-- atEnd, phrased on the remaining stream: for a well-formed stream whose
last token is EndDocument this coincides with the Qt predicate. -/
def XmlReader.atEnd (r : XmlReader) : Bool := r.rest.isEmpty

def XmlReader.isStartElement (r : XmlReader) : Bool :=
  match r.current with
  | .startElement _ _ => true
  | _ => false

/-- name() of the current token: meaningful on start and end elements,
empty elsewhere. -/
def XmlReader.nameStr (r : XmlReader) : String :=
  match r.current with
  | .startElement t _ => t
  | .endElement t => t
  | _ => ""

/-- attributes() of the current token: only a start element carries an
attribute list. -/
def XmlReader.attributes (r : XmlReader) : List (String × String) :=
  match r.current with
  | .startElement _ a => a
  | _ => []

/-- A Parameter's load called with the reader: every variant reads the
attributes of the current token and then advances the reader once
(the trailing r.readNext of each load member). -/
def Param.loadR (p : Param) (r : XmlReader) : Param × XmlReader :=
  (p.loadAttrs r.attributes, r.readNext)

/-! ### ParamsEditor -/

/-- Outcome of the modal dialog (QDialog::Accepted / Rejected after
accept() or reject(); pending while the dialog has not resolved). -/
inductive DialogOutcome where
  | pending
  | accepted
  | rejected
deriving DecidableEq, Repr

/-- ParamsEditor state: the pages of the QTabWidget (by title, the help
tab included once created), the per-tab registered Parameters
(allParams — note the help tab has no entry here), the help-tab flag and
help text, and the dialog outcome. -/
structure ParamsEditor where
  tabTitles : List String
  allParams : List (List Param)
  helpTabCreated : Bool
  helpHtml : String
  outcome : DialogOutcome
deriving DecidableEq, Repr

def mkParamsEditor : ParamsEditor :=
  { tabTitles := [], allParams := [], helpTabCreated := false, helpHtml := ""
    outcome := .pending }

/-- addTab: the returned index is tabs->count() before the insertion; a
page is appended to the tab widget and an empty Parameter vector to
allParams. -/
def ParamsEditor.addTab (e : ParamsEditor) (title : String) : ParamsEditor × Nat :=
  ({ e with tabTitles := e.tabTitles ++ [title], allParams := e.allParams ++ [[]] },
    e.tabTitles.length)

/-- Append a parameter to the group at the given position. -/
def appendAt (ls : List (List Param)) (i : Nat) (p : Param) : List (List Param) :=
  match ls, i with
  | [], _ => []
  | g :: t, 0 => (g ++ [p]) :: t
  | g :: t, n + 1 => g :: appendAt t n p

/-- addParam: rejected when tabIndex is outside [0, allParams.size);
otherwise the Parameter is appended to that group.  The row layout, the
BROWSE wiring for FilePathParam and DirParam and the DEF reset button are
visual wiring not represented in the state. -/
def ParamsEditor.addParam (e : ParamsEditor) (tabIndex : Int) (param : Param) : ParamsEditor :=
  if tabIndex < 0 ∨ (e.allParams.length : Int) ≤ tabIndex then e
  else { e with allParams := appendAt e.allParams tabIndex.toNat param }

/-- setMainHelp: the help tab (titled Help) is appended to the tab widget
on first call only — with no allParams entry — and the browser content is
always replaced. -/
def ParamsEditor.setMainHelp (e : ParamsEditor) (html : String) : ParamsEditor :=
  if e.helpTabCreated then { e with helpHtml := html }
  else { e with tabTitles := e.tabTitles ++ ["Help"], helpTabCreated := true
                helpHtml := html }

/-- The inner double loop of loadFromFile: for every registered Parameter
of every tab, in order, whose name equals the name of the reader's
current token, invoke load (which reads the current attributes and
advances the shared reader). -/
def loadGroup (g : List Param) (r : XmlReader) : List Param × XmlReader :=
  match g with
  | [] => ([], r)
  | p :: ps =>
    if p.name = r.nameStr then
      let (p', r') := p.loadR r
      let (ps', r'') := loadGroup ps r'
      (p' :: ps', r'')
    else
      let (ps', r'') := loadGroup ps r
      (p :: ps', r'')

def loadPass (tabs : List (List Param)) (r : XmlReader) : List (List Param) × XmlReader :=
  match tabs with
  | [] => ([], r)
  | g :: gs =>
    let (g', r') := loadGroup g r
    let (gs', r'') := loadPass gs r'
    (g' :: gs', r'')

/-- The while-loop of loadFromFile.  Each iteration consumes at least one
token, so fuel equal to the stream length makes the recursion equal to
the source loop. -/
def scanLoop : Nat → List (List Param) → XmlReader → List (List Param) × XmlReader
  | 0, tabs, r => (tabs, r)
  | fuel + 1, tabs, r =>
    if r.atEnd then (tabs, r)
    else
      let r1 := r.readNext
      if r1.isStartElement then
        let (tabs', r2) := loadPass tabs r1
        scanLoop fuel tabs' r2
      else scanLoop fuel tabs r1

/-- loadFromFile: a file that cannot be opened (none) causes an immediate
return with no state change; otherwise the token stream is scanned. -/
def ParamsEditor.loadFromFile (e : ParamsEditor) (file : Option (List XmlToken)) :
    ParamsEditor :=
  match file with
  | none => e
  | some toks =>
    { e with allParams :=
        (scanLoop toks.length e.allParams { current := .noToken, rest := toks }).1 }

/-- The document saveToFile writes: the Params root wrapping each
Parameter's element in tab-then-registration order, with the whitespace
the auto-formatting writer inserts before each element. -/
def ParamsEditor.serializeDoc (e : ParamsEditor) : List XmlToken :=
  [.startDocument, .startElement "Params" []]
  ++ (e.allParams.flatten.flatMap fun p =>
      [.characters "\n  ", .startElement p.save.1 p.save.2, .endElement p.save.1])
  ++ [.characters "\n", .endElement "Params", .endDocument]

/-- saveToFile: a file that cannot be opened for writing (canOpen false)
causes an immediate return with nothing written; otherwise the serialized
document is the written content. -/
def ParamsEditor.saveToFile (e : ParamsEditor) (canOpen : Bool) : Option (List XmlToken) :=
  if canOpen then some e.serializeDoc else none

/-- The APPLY button handler: apply every Parameter of every tab in
order, then accept(). -/
def ParamsEditor.onApplyClicked (e : ParamsEditor) : ParamsEditor :=
  { e with allParams := e.allParams.map (fun g => g.map Param.apply)
           outcome := .accepted }

/-- The CANCEL button handler: reject() only. -/
def ParamsEditor.onCancelClicked (e : ParamsEditor) : ParamsEditor :=
  { e with outcome := .rejected }

/-- Pointwise update of one element of a list. -/
def modifyAt {α : Type} (l : List α) (i : Nat) (f : α → α) : List α :=
  match l, i with
  | [], _ => []
  | a :: t, 0 => f a :: t
  | a :: t, n + 1 => a :: modifyAt t n f

/-- Delivery of a user interaction to the control of one registered
Parameter while the dialog is displayed. -/
def ParamsEditor.userEventAt (e : ParamsEditor) (ti pi : Nat) (f : Param → Param) :
    ParamsEditor :=
  { e with allParams := modifyAt e.allParams ti (fun g => modifyAt g pi f) }

/-! ### Editor operation sequences (for the registration claims) -/

/-- Host-side registration calls on the editor. -/
inductive EdOp where
  | addTab (title : String)
  | setMainHelp (html : String)
  | addParam (tabIndex : Int) (p : Param)

def ParamsEditor.runOp (e : ParamsEditor) : EdOp → ParamsEditor
  | .addTab t => (e.addTab t).1
  | .setMainHelp h => e.setMainHelp h
  | .addParam i p => e.addParam i p

def ParamsEditor.runOps (e : ParamsEditor) : List EdOp → ParamsEditor
  | [] => e
  | op :: ops => (e.runOp op).runOps ops

/-- The indices returned by the addTab calls of an operation sequence, in
call order. -/
def addTabIndices (e : ParamsEditor) : List EdOp → List Nat
  | [] => []
  | .addTab t :: ops => e.tabTitles.length :: addTabIndices (e.addTab t).1 ops
  | .setMainHelp h :: ops => addTabIndices (e.setMainHelp h) ops
  | .addParam i p :: ops => addTabIndices (e.addParam i p) ops

def EdOp.isSetMainHelp : EdOp → Bool
  | .setMainHelp _ => true
  | _ => false

def EdOp.isAddTab : EdOp → Bool
  | .addTab _ => true
  | _ => false

/-! ### Reflection binder (AdvancedPropertyAdapter)

The Qt meta-object system is modelled at the boundary the binder uses: a
bound object is its ordered declared-property list (name, declared
type, writability, current value) plus the dynamic properties probed for
the naming-convention metadata.  The Display, Tooltip and Category
metadata are string-valued; Min, Max and Step are read with toDouble in
the source and carried as integers here (no claim involves fractional
metadata). -/

/-- Declared property types distinguished by createParamForProperty. An
enum type carries the symbolic names its QMetaEnum enumerates. -/
inductive PropType where
  | tInt
  | tDouble
  | tFloat
  | tBool
  | tString
  | tColor
  | tStringList
  | tDate
  | tTime
  | tPoint
  | tSize
  | tRect
  | tVariant
  | tEnum (names : List String)
  | tOther (typeName : String)
deriving DecidableEq, Repr

/-- A property value (the QVariant prop.read returns). -/
inductive PValue where
  | intV (i : Int)
  | realV (x : Rat)
  | boolV (b : Bool)
  | strV (s : String)
  | colorV (c : QColorM)
  | listV (l : List String)
  | dateV (d : DateM)
  | timeV (t : TimeM)
  | pointV (p : QPointM)
  | sizeV (s : QSizeM)
  | rectV (r : QRectM)
  | varV (s : String)
  | enumV (i : Int)
deriving DecidableEq, Repr

/-- QVariant::toInt on the reads the binder performs (matching-typed
reads in practice; mismatches take the Qt defaults). -/
def PValue.toIntQ : PValue → Int
  | .intV i => i
  | .enumV i => i
  | .boolV b => if b then 1 else 0
  | .realV x => round x
  | .strV s => qToInt s
  | _ => 0

def PValue.toRatQ : PValue → Rat
  | .realV x => x
  | .intV i => (i : Rat)
  | .enumV i => (i : Rat)
  | .boolV b => if b then 1 else 0
  | .strV s => qToDouble s
  | _ => 0

def PValue.toBoolQ : PValue → Bool
  | .boolV b => b
  | .intV i => i != 0
  | .enumV i => i != 0
  | .strV s => s == "true" || s == "1"
  | _ => false

def PValue.toStringQ : PValue → String
  | .strV s => s
  | .varV s => s
  | .intV i => intToString i
  | .enumV i => intToString i
  | _ => ""

def PValue.toColorQ : PValue → QColorM
  | .colorV c => c
  | _ => ⟨""⟩

def PValue.toListQ : PValue → List String
  | .listV l => l
  | .strV s => [s]
  | _ => []

def PValue.toDateQ : PValue → DateM
  | .dateV d => d
  | _ => ⟨0, 0, 0⟩

def PValue.toTimeQ : PValue → TimeM
  | .timeV t => t
  | _ => ⟨0, 0, 0⟩

def PValue.toPointQ : PValue → QPointM
  | .pointV p => p
  | _ => ⟨0, 0⟩

def PValue.toSizeQ : PValue → QSizeM
  | .sizeV s => s
  | _ => ⟨-1, -1⟩

def PValue.toRectQ : PValue → QRectM
  | .rectV r => r
  | _ => ⟨0, 0, 0, 0⟩

/-- One declared property as the meta-object reports it. -/
structure MetaProp where
  name : String
  ptype : PropType
  writable : Bool
  value : PValue
deriving DecidableEq, Repr

/-- First-match lookup in a dynamic-property list. -/
def assocLookup {α : Type} (l : List (String × α)) (k : String) : Option α :=
  match l with
  | [] => none
  | (a, v) :: rest => if a = k then some v else assocLookup rest k

/-- The bound QObject as the binder sees it. -/
structure BoundObject where
  props : List MetaProp
  dynStr : List (String × String)
  dynNum : List (String × Int)
deriving Repr

/-- PropertyInfo, filled by extractPropertyInfo. -/
structure PropertyInfo where
  name : String
  displayName : String
  tooltip : String
  category : String
  min : Int
  max : Int
  step : Int
  enumNames : List String
deriving DecidableEq, Repr

/-- Strip the conventional m_ owner prefix for the display name
(cleanName.startsWith and mid of the source). -/
def stripOwner (s : String) : String :=
  match s.toList with
  | 'm' :: '_' :: rest => ⟨rest⟩
  | _ => s

/-- cleanName.replace of underscores by spaces. -/
def underscoresToSpaces (s : String) : String :=
  ⟨s.toList.map fun c => if c = '_' then ' ' else c⟩

def extractPropertyInfo (obj : BoundObject) (p : MetaProp) : PropertyInfo :=
  let cleanName := underscoresToSpaces (stripOwner p.name)
  { name := p.name
    displayName := (assocLookup obj.dynStr (p.name ++ "Display")).getD cleanName
    tooltip := (assocLookup obj.dynStr (p.name ++ "Tooltip")).getD ""
    category := (assocLookup obj.dynStr (p.name ++ "Category")).getD ""
    min := (assocLookup obj.dynNum (p.name ++ "Min")).getD 0
    max := (assocLookup obj.dynNum (p.name ++ "Max")).getD 0
    step := (assocLookup obj.dynNum (p.name ++ "Step")).getD 0
    enumNames :=
      match p.ptype with
      | .tEnum ns => ns
      | _ => [] }

/-- Stand-in for DBL_MAX in the default spin ranges. -/
def dblMax : Rat := (10 : Rat) ^ (308 : Nat)

/-- Stand-in for FLT_MAX. -/
def fltMax : Rat := (34 : Rat) * (10 : Rat) ^ (37 : Nat)

/-- The Parameter createParamForProperty builds for a property, none for
an unsupported type (the source then only logs a warning).  Each branch
mirrors the corresponding createXxxParam helper: the value buffer is
initialized from the property's current value, the numeric bounds default
to the full range when both Min and Max metadata are zero, and the
non-numeric variants take the buffer value as their default.  For an enum
property the ComboParam is seeded with the enumerator names and the
enum value serves as both buffer value and default index. -/
def mkParamFor (p : MetaProp) (info : PropertyInfo) : Option Param :=
  match p.ptype with
  | .tInt =>
    let lo := if info.min ≠ 0 ∨ info.max ≠ 0 then info.min else intMin
    let hi := if info.min ≠ 0 ∨ info.max ≠ 0 then info.max else intMax
    some (.int (IntParam.init info.displayName p.value.toIntQ lo hi))
  | .tDouble =>
    let lo := if info.min ≠ 0 ∨ info.max ≠ 0 then (info.min : Rat) else -dblMax
    let hi := if info.min ≠ 0 ∨ info.max ≠ 0 then (info.max : Rat) else dblMax
    some (.double (DoubleParam.init info.displayName p.value.toRatQ lo hi))
  | .tFloat =>
    let lo := if info.min ≠ 0 ∨ info.max ≠ 0 then (info.min : Rat) else -fltMax
    let hi := if info.min ≠ 0 ∨ info.max ≠ 0 then (info.max : Rat) else fltMax
    some (.float (FloatParam.init info.displayName p.value.toRatQ lo hi))
  | .tBool => some (.bool (BoolParam.init info.displayName p.value.toBoolQ p.value.toBoolQ))
  | .tString =>
    some (.string (StringParam.init info.displayName p.value.toStringQ p.value.toStringQ))
  | .tColor =>
    some (.color (ColorParam.init info.displayName p.value.toColorQ p.value.toColorQ))
  | .tStringList =>
    some (.stringList (StringListParam.init info.displayName p.value.toListQ p.value.toListQ))
  | .tDate => some (.date (DateParam.init info.displayName p.value.toDateQ p.value.toDateQ))
  | .tTime => some (.time (TimeParam.init info.displayName p.value.toTimeQ p.value.toTimeQ))
  | .tPoint =>
    some (.point (PointParam.init info.displayName p.value.toPointQ p.value.toPointQ))
  | .tSize => some (.size (SizeParam.init info.displayName p.value.toSizeQ p.value.toSizeQ))
  | .tRect => some (.rect (RectParam.init info.displayName p.value.toRectQ p.value.toRectQ))
  | .tVariant =>
    some (.variant (VariantParam.init info.displayName p.value.toStringQ p.value.toStringQ))
  | .tEnum _ =>
    some (.combo (ComboParam.init info.displayName info.enumNames p.value.toIntQ
      p.value.toIntQ))
  | .tOther _ => none

/-- createParamForProperty: dispatch on the declared type and register
the Parameter (the write-back connections of setupParamConnections and
the live currentIndexChanged write of createEnumParam act on the bound
object, outside the editor state modelled here). -/
def createParamForProperty (e : ParamsEditor) (tabIndex : Nat) (p : MetaProp)
    (info : PropertyInfo) : ParamsEditor :=
  match mkParamFor p info with
  | some pr => e.addParam (tabIndex : Int) pr
  | none => e

/-- The property loop of bindObjectToEditor, carrying the
category-to-tab-index map. -/
def bindLoop (obj : BoundObject) (defaultTabName : String) :
    ParamsEditor → List (String × Nat) → List MetaProp → ParamsEditor
  | e, _, [] => e
  | e, catMap, p :: rest =>
    if p.writable then
      let info := extractPropertyInfo obj p
      let category := if info.category = "" then defaultTabName else info.category
      match assocLookup catMap category with
      | some i => bindLoop obj defaultTabName (createParamForProperty e i p info) catMap rest
      | none =>
        bindLoop obj defaultTabName
          (createParamForProperty (e.addTab category).1 (e.addTab category).2 p info)
          (catMap ++ [(category, (e.addTab category).2)]) rest
    else bindLoop obj defaultTabName e catMap rest

/-- bindObjectToEditor. -/
def bindObjectToEditor (e : ParamsEditor) (obj : BoundObject)
    (defaultTabName : String) : ParamsEditor :=
  bindLoop obj defaultTabName e [] obj.props

/-- The category a property is routed to: the Category sibling when it
yields a nonempty string, the caller's default tab name otherwise. -/
def resolvedCategory (obj : BoundObject) (defaultTabName : String) (p : MetaProp) : String :=
  let c := (extractPropertyInfo obj p).category
  if c = "" then defaultTabName else c

/-- Whether the declared type has a Parameter variant. -/
def PropType.isSupported : PropType → Bool
  | .tOther _ => false
  | _ => true

/-! ## Claim C9: unopenable files -/

/-- C9: for every path naming a file that cannot be opened, loadFromFile
returns with no editor-state change and saveToFile returns with nothing
written; both functions are total, so no exception escapes. -/
theorem c9_unopenable_file_no_work (e : ParamsEditor) :
    e.loadFromFile none = e ∧ e.saveToFile false = none :=
  ⟨rfl, rfl⟩

/-! ## Claim C10: unvalidated combo index on load -/

/-- C10: ComboParam.load applies the loaded index to the combo without
validating it against the option list; any index outside
[0, number of options) leaves the control with currentIndex -1, and a
subsequent apply writes that -1 into the bound index slot. -/
theorem c10_combo_load_unvalidated (pa : ComboParam) (i : Int)
    (h : i < 0 ∨ (pa.combo.items.length : Int) ≤ i) :
    ((pa.load [("index", intToString i)]).combo.currentIndex = -1) ∧
    ((pa.load [("index", intToString i)]).apply.ptr = -1) := by
  have hload : pa.load [("index", intToString i)] =
      { pa with combo := pa.combo.setCurrentIndex (qToInt (intToString i)) } := by
    unfold ComboParam.load
    simp [attrValue]
  rw [qToInt_intToString] at hload
  have hset : pa.combo.setCurrentIndex i = { pa.combo with currentIndex := -1 } := by
    unfold QComboBoxM.setCurrentIndex
    rw [if_neg]
    omega
  refine ⟨?_, ?_⟩
  · rw [hload, hset]
  · rw [hload]
    unfold ComboParam.apply
    simp [hset]

/-- Witness for C10 at the options of main.cpp and stored index 5. -/
theorem c10_combo_load_unvalidated_witness :
    (((ComboParam.init "Options" ["Option 1", "Option 2", "Option 3"] 1 0).load
        [("index", intToString 5)]).combo.currentIndex = -1) ∧
    (((ComboParam.init "Options" ["Option 1", "Option 2", "Option 3"] 1 0).load
        [("index", intToString 5)]).apply.ptr = -1) :=
  c10_combo_load_unvalidated (ComboParam.init "Options" ["Option 1", "Option 2", "Option 3"] 1 0)
    5 (Or.inr (by decide))

/-! ## Claim C6: missing or malformed attributes on load -/

/-- C6 counterexample: an IntParam at control value 42 loaded from an
element whose value attribute is present but unparseable is set to 0 (the
failure value of toInt, clamped into range), not left untouched as the
claim states. -/
theorem c6_counterexample_int_malformed :
    ((IntParam.init "Answer" 42 0 100).load [("value", "4x2")]).spin.val = 0 ∧
    (0 : Int) ≠ 42 := by
  constructor
  · decide
  · decide

/-- C6 amended: an element with no matching attribute leaves every
modelled Parameter variant untouched, and the validity-checked date and
time variants are also left untouched by unparseable text; but the
integer variant applies unparseable text as 0 (setValue of the toInt
failure value, clamped into the spin range), the choice variant passes
toInt's failure value 0 to setCurrentIndex — selecting the first option
when the option list is nonempty and clearing the selection to -1 when it
is empty — and the boolean variant applies any text other than "true" as
false. -/
theorem c6_amended_malformed_load :
    (∀ p : Param, p.loadAttrs [] = p) ∧
    (∀ (pa : IntParam) (s : String), qIntValid s = false →
      (pa.load [("value", s)]).spin = pa.spin.setValue 0) ∧
    (∀ (pa : DateParam) (s : String), qDateFromISO s = none →
      pa.load [("value", s)] = pa) ∧
    (∀ (pa : BoolParam) (s : String), s ≠ "true" →
      (pa.load [("value", s)]).check = false) ∧
    (∀ (pa : TimeParam) (s : String), qTimeFromISO s = none →
      pa.load [("value", s)] = pa) ∧
    (∀ (pa : ComboParam) (s : String), qIntValid s = false →
      (pa.load [("index", s)]).combo = pa.combo.setCurrentIndex 0 ∧
      (pa.load [("index", s)]).combo.currentIndex =
        (if 0 < pa.combo.items.length then (0 : Int) else -1)) := by
  refine ⟨?_, ?_, ?_, ?_, ?_, ?_⟩
  · intro p
    cases p <;> rfl
  · intro pa s h
    unfold IntParam.load
    simp [attrValue, qToInt_of_invalid h]
  · intro pa s h
    unfold DateParam.load
    simp [attrValue, h]
  · intro pa s h
    unfold BoolParam.load
    simp [attrValue]
    exact h
  · intro pa s h
    unfold TimeParam.load
    simp [attrValue, h]
  · intro pa s h
    have hload : (pa.load [("index", s)]).combo = pa.combo.setCurrentIndex 0 := by
      unfold ComboParam.load
      simp [attrValue, qToInt_of_invalid h]
    refine ⟨hload, ?_⟩
    rw [hload]
    unfold QComboBoxM.setCurrentIndex
    by_cases hl : 0 < pa.combo.items.length
    · rw [if_pos ⟨le_refl 0, by exact_mod_cast hl⟩, if_pos hl]
    · rw [if_neg ?_, if_neg hl]
      rintro ⟨-, hc⟩
      exact hl (by exact_mod_cast hc)

/-- Witness for C6 amended: the missing-attribute case on a concrete
IntParam and the malformed cases on concrete text, including an empty and
a populated choice control. -/
theorem c6_amended_malformed_load_witness :
    (Param.int (IntParam.init "Answer" 42 0 100)).loadAttrs [] =
      Param.int (IntParam.init "Answer" 42 0 100) ∧
    ((IntParam.init "Answer" 42 0 100).load [("value", "junk")]).spin =
      (IntParam.init "Answer" 42 0 100).spin.setValue 0 ∧
    (DateParam.init "Date" ⟨2024, 5, 7⟩ ⟨2024, 5, 7⟩).load [("value", "2024-13-40")] =
      DateParam.init "Date" ⟨2024, 5, 7⟩ ⟨2024, 5, 7⟩ ∧
    ((BoolParam.init "Enable" true false).load [("value", "TRUE")]).check = false ∧
    (TimeParam.init "Time" ⟨12, 30, 45⟩ ⟨12, 30, 45⟩).load [("value", "12:3x:45")] =
      TimeParam.init "Time" ⟨12, 30, 45⟩ ⟨12, 30, 45⟩ ∧
    ((ComboParam.init "Options" ["Option 1", "Option 2", "Option 3"] 1 0).load
      [("index", "junk")]).combo.currentIndex = 0 ∧
    ((ComboParam.init "Empty" [] (-1) 0).load [("index", "junk")]).combo.currentIndex = -1 := by
  refine ⟨c6_amended_malformed_load.1 _,
    c6_amended_malformed_load.2.1 _ "junk" (by decide),
    c6_amended_malformed_load.2.2.1 _ "2024-13-40" (by decide),
    c6_amended_malformed_load.2.2.2.1 _ "TRUE" (by decide),
    c6_amended_malformed_load.2.2.2.2.1 _ "12:3x:45" (by decide), ?_, ?_⟩
  · rw [(c6_amended_malformed_load.2.2.2.2.2 _ "junk" (by decide)).2]
    decide
  · rw [(c6_amended_malformed_load.2.2.2.2.2 _ "junk" (by decide)).2]
    decide

/-! ## Claim C7: reset followed by apply -/

/-- C2: the code contradicts the contract for ColorParam.  After the user
picks a color through the dialog (the button then displays it through its
style sheet), apply writes the button's palette color — which
setStyleSheet never updated — into the slot, not the displayed color: the
slot ends at the construction-time palette color, clobbering even the
color the clicked handler had already stored. -/
theorem c2_colorparam_apply_palette_bug :
    ((ColorParam.init "Color" ⟨"#0000ff"⟩ ⟨"#ff0000"⟩).clicked
        (some ⟨"#00ff00"⟩)).btnStyle = ⟨"#00ff00"⟩ ∧
    (((ColorParam.init "Color" ⟨"#0000ff"⟩ ⟨"#ff0000"⟩).clicked
        (some ⟨"#00ff00"⟩)).apply).ptr = defaultButtonPalette ∧
    (((ColorParam.init "Color" ⟨"#0000ff"⟩ ⟨"#ff0000"⟩).clicked
        (some ⟨"#00ff00"⟩)).apply).ptr ≠
      ((ColorParam.init "Color" ⟨"#0000ff"⟩ ⟨"#ff0000"⟩).clicked
        (some ⟨"#00ff00"⟩)).btnStyle := by
  exact ⟨rfl, rfl, by decide⟩

/-! ## Claim C1: reject leaves no externally owned slot mutated -/

/-- C1: the code contradicts transaction atomicity.  A ColorParam is
registered with its slot holding blue; while the dialog shows, the user
picks green (the clicked handler writes the slot immediately); CANCEL
then only rejects.  The outcome is rejected yet the externally owned slot
holds green, not its pre-display value blue. -/
theorem c1_reject_leaves_color_slot_mutated :
    ((((mkParamsEditor.addTab "Simple").1.addParam 0
        (Param.color (ColorParam.init "Color" ⟨"#0000ff"⟩ ⟨"#ff0000"⟩))).userEventAt 0 0
        (Param.colorClicked (some ⟨"#00ff00"⟩))).onCancelClicked).outcome =
      DialogOutcome.rejected ∧
    ((((mkParamsEditor.addTab "Simple").1.addParam 0
        (Param.color (ColorParam.init "Color" ⟨"#0000ff"⟩ ⟨"#ff0000"⟩))).userEventAt 0 0
        (Param.colorClicked (some ⟨"#00ff00"⟩))).onCancelClicked).allParams =
      [[Param.color ⟨"Color", ⟨"#00ff00"⟩, ⟨"#ff0000"⟩, ⟨"#00ff00"⟩, defaultButtonPalette⟩]] ∧
    (⟨"#00ff00"⟩ : QColorM) ≠ (⟨"#0000ff"⟩ : QColorM) := by
  refine ⟨rfl, by decide, by decide⟩

/-! ## Claim C3: serialize/deserialize round trip -/

/-- C3 counterexample: a StringListParam whose control text is "a,b"
saves value "a,b", but reloading that element splits the text at the
comma and the control text after the round trip is "a", not the text
that was saved. -/
theorem c3_counterexample_stringlist :
    (((StringListParam.init "ListValue" ["a,b"] ["a,b"]).load
        (StringListParam.init "ListValue" ["a,b"] ["a,b"]).save.2).combo.text = "a") ∧
    ("a" : String) ≠ "a,b" := by
  exact ⟨by decide, by decide⟩

/-- QXmlStreamAttributes.value on a one-attribute element. -/
theorem attrValue_single (k v : String) : attrValue [(k, v)] k = some v := by
  simp [attrValue]

theorem attrValue_cons_eq (k v : String) (rest : List (String × String)) :
    attrValue ((k, v) :: rest) k = some v := by
  simp [attrValue]

theorem attrValue_cons_ne (k v k' : String) (rest : List (String × String))
    (h : k ≠ k') : attrValue ((k, v) :: rest) k' = attrValue rest k' := by
  simp [attrValue, h]

theorem decimalVal_append_zeros (k : Nat) (cs : List Char) :
    decimalVal (List.replicate k '0' ++ cs) = decimalVal cs := by
  induction k with
  | zero => rfl
  | succ n ih =>
    show decimalVal ('0' :: (List.replicate n '0' ++ cs)) = decimalVal cs
    unfold decimalVal at ih ⊢
    rw [List.foldl_cons]
    have h0 : 10 * 0 + digitVal '0' = 0 := by decide
    rw [h0]
    exact ih

theorem decimalVal_padDec (w n : Nat) : decimalVal (padDec w n) = n := by
  unfold padDec
  rw [decimalVal_append_zeros, decimalVal_natDecChars]

theorem padDec_all_digit (w n : Nat) : (padDec w n).all Char.isDigit = true := by
  unfold padDec
  rw [List.all_append, Bool.and_eq_true]
  refine ⟨?_, natDecChars_all_digit n⟩
  rw [List.all_eq_true]
  intro c hc
  rw [List.eq_of_mem_replicate hc]
  decide

theorem natDecChars_length_le (w n : Nat) (hw : 1 ≤ w) (h : n < 10 ^ w) :
    (natDecChars n).length ≤ w := by
  unfold natDecChars
  by_cases h0 : n = 0
  · simpa [h0] using hw
  · rw [if_neg h0]
    simp only [List.length_reverse, List.length_map]
    rw [Nat.digits_len 10 n (by norm_num) h0]
    have hlog := Nat.log_lt_of_lt_pow h0 h
    omega

theorem padDec_length (w n : Nat) (hw : 1 ≤ w) (h : n < 10 ^ w) :
    (padDec w n).length = w := by
  unfold padDec
  have hle := natDecChars_length_le w n hw h
  simp only [List.length_append, List.length_replicate]
  omega

theorem exists_len2 {α : Type} (l : List α) (h : l.length = 2) :
    ∃ a b, l = [a, b] := by
  rcases l with _ | ⟨a, l⟩
  · simp at h
  rcases l with _ | ⟨b, l⟩
  · simp at h
  rcases l with _ | ⟨c, l⟩
  · exact ⟨a, b, rfl⟩
  · simp at h

theorem exists_len4 {α : Type} (l : List α) (h : l.length = 4) :
    ∃ a b c d, l = [a, b, c, d] := by
  rcases l with _ | ⟨a, l⟩
  · simp at h
  rcases l with _ | ⟨b, l⟩
  · simp at h
  rcases l with _ | ⟨c, l⟩
  · simp at h
  rcases l with _ | ⟨d, l⟩
  · simp at h
  rcases l with _ | ⟨e, l⟩
  · exact ⟨a, b, c, d, rfl⟩
  · simp at h

theorem daysInMonth_le_31 (y m : Int) : daysInMonth y m ≤ 31 := by
  unfold daysInMonth
  split
  · split <;> omega
  · split <;> omega

/-- Round trip of the ISO date codec on valid dates with nonnegative
four-digit years (the range the padded yyyy-MM-dd form covers). -/
theorem qDateFromISO_dateToISO (dt : DateM) (hv : dt.isValid = true)
    (h0 : 0 ≤ dt.y) (h4 : dt.y < 10000) : qDateFromISO (dateToISO dt) = some dt := by
  have hb : 1 ≤ dt.m ∧ dt.m ≤ 12 ∧ 1 ≤ dt.d ∧ dt.d ≤ daysInMonth dt.y dt.m := by
    unfold DateM.isValid at hv
    simp only [Bool.and_eq_true, decide_eq_true_eq] at hv
    exact ⟨hv.1.1.1, hv.1.1.2, hv.1.2, hv.2⟩
  have hd31 := daysInMonth_le_31 dt.y dt.m
  obtain ⟨y1, y2, y3, y4, hy⟩ := exists_len4 (padDec 4 dt.y.toNat)
    (padDec_length 4 dt.y.toNat (by norm_num) (by norm_num; omega))
  obtain ⟨m1, m2, hm⟩ := exists_len2 (padDec 2 dt.m.toNat)
    (padDec_length 2 dt.m.toNat (by norm_num) (by norm_num; omega))
  obtain ⟨d1, d2, hd⟩ := exists_len2 (padDec 2 dt.d.toNat)
    (padDec_length 2 dt.d.toNat (by norm_num) (by norm_num; omega))
  have hay : [y1, y2, y3, y4].all Char.isDigit = true := by
    rw [← hy]
    exact padDec_all_digit 4 _
  have ham : [m1, m2].all Char.isDigit = true := by
    rw [← hm]
    exact padDec_all_digit 2 _
  have had : [d1, d2].all Char.isDigit = true := by
    rw [← hd]
    exact padDec_all_digit 2 _
  have hvy : decimalVal [y1, y2, y3, y4] = dt.y.toNat := by
    rw [← hy, decimalVal_padDec]
  have hvm : decimalVal [m1, m2] = dt.m.toNat := by
    rw [← hm, decimalVal_padDec]
  have hvd : decimalVal [d1, d2] = dt.d.toNat := by
    rw [← hd, decimalVal_padDec]
  simp only [List.all_cons, List.all_nil, Bool.and_eq_true] at hay ham had
  unfold qDateFromISO dateToISO
  rw [hy, hm, hd, toList_mk]
  simp only [List.cons_append, List.nil_append]
  rw [if_pos (by simp [hay.1, hay.2.1, hay.2.2.1, hay.2.2.2.1, ham.1, ham.2.1,
    had.1, had.2.1])]
  have hdt : (⟨(decimalVal [y1, y2, y3, y4] : Int), (decimalVal [m1, m2] : Int),
      (decimalVal [d1, d2] : Int)⟩ : DateM) = dt := by
    rw [hvy, hvm, hvd]
    cases dt with
    | mk y m d =>
      simp only at h0 hb ⊢
      congr 1 <;> omega
  rw [hdt, if_pos hv]

/-- Round trip of the ISO time codec on valid times. -/
theorem qTimeFromISO_timeToISO (t : TimeM) (hv : t.isValid = true) :
    qTimeFromISO (timeToISO t) = some t := by
  have hb : 0 ≤ t.h ∧ t.h < 24 ∧ 0 ≤ t.mi ∧ t.mi < 60 ∧ 0 ≤ t.s ∧ t.s < 60 := by
    unfold TimeM.isValid at hv
    simp only [Bool.and_eq_true, decide_eq_true_eq] at hv
    exact ⟨hv.1.1.1.1.1, hv.1.1.1.1.2, hv.1.1.1.2, hv.1.1.2, hv.1.2, hv.2⟩
  obtain ⟨h1, h2, hh⟩ := exists_len2 (padDec 2 t.h.toNat)
    (padDec_length 2 t.h.toNat (by norm_num) (by norm_num; omega))
  obtain ⟨m1, m2, hm⟩ := exists_len2 (padDec 2 t.mi.toNat)
    (padDec_length 2 t.mi.toNat (by norm_num) (by norm_num; omega))
  obtain ⟨s1, s2, hs⟩ := exists_len2 (padDec 2 t.s.toNat)
    (padDec_length 2 t.s.toNat (by norm_num) (by norm_num; omega))
  have hah : [h1, h2].all Char.isDigit = true := by
    rw [← hh]
    exact padDec_all_digit 2 _
  have ham : [m1, m2].all Char.isDigit = true := by
    rw [← hm]
    exact padDec_all_digit 2 _
  have has : [s1, s2].all Char.isDigit = true := by
    rw [← hs]
    exact padDec_all_digit 2 _
  have hvh : decimalVal [h1, h2] = t.h.toNat := by
    rw [← hh, decimalVal_padDec]
  have hvm : decimalVal [m1, m2] = t.mi.toNat := by
    rw [← hm, decimalVal_padDec]
  have hvs : decimalVal [s1, s2] = t.s.toNat := by
    rw [← hs, decimalVal_padDec]
  simp only [List.all_cons, List.all_nil, Bool.and_eq_true] at hah ham has
  unfold qTimeFromISO timeToISO
  rw [hh, hm, hs, toList_mk]
  simp only [List.cons_append, List.nil_append]
  rw [if_pos (by simp [hah.1, hah.2.1, ham.1, ham.2.1, has.1, has.2.1])]
  have ht : (⟨(decimalVal [h1, h2] : Int), (decimalVal [m1, m2] : Int),
      (decimalVal [s1, s2] : Int)⟩ : TimeM) = t := by
    rw [hvh, hvm, hvs]
    cases t with
    | mk th tm ts =>
      simp only at hb ⊢
      congr 1 <;> omega
  rw [ht, if_pos hv]

theorem setValue_self {s : QSpinBoxM} (h1 : s.lo ≤ s.val) (h2 : s.val ≤ s.hi) :
    s.setValue s.val = s := by
  cases s with
  | mk lo hi val =>
    unfold QSpinBoxM.setValue
    simp only [QSpinBoxM.mk.injEq, true_and]
    simp only at h1 h2
    omega

theorem intParam_fold_val_range (edits : List Int) (pa : IntParam)
    (hr : pa.spin.lo ≤ pa.spin.hi)
    (h1 : pa.spin.lo ≤ pa.spin.val) (h2 : pa.spin.val ≤ pa.spin.hi) :
    (List.foldl IntParam.userSet pa edits).spin.lo ≤
      (List.foldl IntParam.userSet pa edits).spin.val ∧
    (List.foldl IntParam.userSet pa edits).spin.val ≤
      (List.foldl IntParam.userSet pa edits).spin.hi := by
  induction edits generalizing pa with
  | nil => exact ⟨h1, h2⟩
  | cons v rest ih =>
    refine ih (pa.userSet v) ?_ ?_ ?_ <;>
      simp only [IntParam.userSet, QSpinBoxM.setValue] <;> omega

/-- C3 amended: deserialize after serialize restores the control state of
every modelled variant except the string-list and color ones: proved for
the integer variant (from any reachable control state), the text, boolean
and choice variants, the font, path, directory and opaque-variant ones,
the date variant (valid dates with nonnegative four-digit years, the
range the yyyy-MM-dd form covers), the time variant (valid times), and
the point, size and rectangle variants (spin values within their
configured ranges).  For the string-list variant the round trip replaces
the combo contents by the comma-split items of the saved text, so the
displayed text becomes the first comma-separated item (the saved text
itself only when it has at most one such item).  For the color variant
the round trip sets the displayed color to the button palette color
(which updateButton never writes), not the color that was displayed when
saving: on a concrete editor showing green over the default palette the
reloaded button shows the palette grey. -/
theorem c3_amended_roundtrip :
    (∀ (nm : String) (v lo hi : Int), lo ≤ hi → ∀ iedits : List Int,
      (List.foldl IntParam.userSet (IntParam.init nm v lo hi) iedits).load
          (List.foldl IntParam.userSet (IntParam.init nm v lo hi) iedits).save.2 =
        List.foldl IntParam.userSet (IntParam.init nm v lo hi) iedits) ∧
    (∀ pa : StringParam, pa.load pa.save.2 = pa) ∧
    (∀ pa : BoolParam, pa.load pa.save.2 = pa) ∧
    (∀ pa : ComboParam, (pa.combo.currentIndex = -1 ∨
        (0 ≤ pa.combo.currentIndex ∧
          pa.combo.currentIndex < (pa.combo.items.length : Int))) →
      pa.load pa.save.2 = pa) ∧
    (∀ pa : StringListParam, (pa.load pa.save.2).combo =
      ⟨qSplitSkipEmpty pa.combo.text, (qSplitSkipEmpty pa.combo.text).headD ""⟩) ∧
    (∀ pa : FontParam, pa.load pa.save.2 = pa) ∧
    (∀ pa : FilePathParam, pa.load pa.save.2 = pa) ∧
    (∀ pa : DirParam, pa.load pa.save.2 = pa) ∧
    (∀ pa : VariantParam, pa.load pa.save.2 = pa) ∧
    (∀ pa : DateParam, pa.dateEdit.isValid = true → 0 ≤ pa.dateEdit.y →
      pa.dateEdit.y < 10000 → pa.load pa.save.2 = pa) ∧
    (∀ pa : TimeParam, pa.timeEdit.isValid = true → pa.load pa.save.2 = pa) ∧
    (∀ pa : PointParam,
      pa.xSpin.lo ≤ pa.xSpin.val → pa.xSpin.val ≤ pa.xSpin.hi →
      pa.ySpin.lo ≤ pa.ySpin.val → pa.ySpin.val ≤ pa.ySpin.hi →
      pa.load pa.save.2 = pa) ∧
    (∀ pa : SizeParam,
      pa.widthSpin.lo ≤ pa.widthSpin.val → pa.widthSpin.val ≤ pa.widthSpin.hi →
      pa.heightSpin.lo ≤ pa.heightSpin.val → pa.heightSpin.val ≤ pa.heightSpin.hi →
      pa.load pa.save.2 = pa) ∧
    (∀ pa : RectParam,
      pa.xSpin.lo ≤ pa.xSpin.val → pa.xSpin.val ≤ pa.xSpin.hi →
      pa.ySpin.lo ≤ pa.ySpin.val → pa.ySpin.val ≤ pa.ySpin.hi →
      pa.widthSpin.lo ≤ pa.widthSpin.val → pa.widthSpin.val ≤ pa.widthSpin.hi →
      pa.heightSpin.lo ≤ pa.heightSpin.val → pa.heightSpin.val ≤ pa.heightSpin.hi →
      pa.load pa.save.2 = pa) ∧
    (∀ pa : ColorParam, pa.load pa.save.2 = { pa with btnStyle := pa.btnPalette }) ∧
    (((ColorParam.init "Color" ⟨"#0000ff"⟩ ⟨"#ff0000"⟩).clicked (some ⟨"#00ff00"⟩)).load
        (((ColorParam.init "Color" ⟨"#0000ff"⟩ ⟨"#ff0000"⟩).clicked
          (some ⟨"#00ff00"⟩)).save.2)).btnStyle = defaultButtonPalette ∧
    defaultButtonPalette ≠ (⟨"#00ff00"⟩ : QColorM) := by
  refine ⟨?_, ?_, ?_, ?_, ?_, ?_, ?_, ?_, ?_, ?_, ?_, ?_, ?_, ?_, ?_, ?_, ?_⟩
  · intro nm v lo hi h iedits
    have hinit1 : (IntParam.init nm v lo hi).spin.lo ≤ (IntParam.init nm v lo hi).spin.val := by
      unfold IntParam.init mkSpin QSpinBoxM.setValue
      simp only
      omega
    have hinit2 : (IntParam.init nm v lo hi).spin.val ≤ (IntParam.init nm v lo hi).spin.hi := by
      unfold IntParam.init mkSpin QSpinBoxM.setValue
      simp only
      omega
    obtain ⟨hv1, hv2⟩ := intParam_fold_val_range iedits (IntParam.init nm v lo hi) h hinit1 hinit2
    simp only [IntParam.load, IntParam.save, attrValue_single, qToInt_intToString,
      setValue_self hv1 hv2]
  · intro pa
    simp [StringParam.load, StringParam.save, attrValue_single]
  · intro pa
    cases pa with
    | mk n p d c =>
      cases c <;> simp [BoolParam.load, BoolParam.save, attrValue]
  · intro pa h
    cases pa with
    | mk n opts p d cb =>
      cases cb with
      | mk items cur =>
        simp only at h
        simp only [ComboParam.load, ComboParam.save, attrValue_single, qToInt_intToString]
        unfold QComboBoxM.setCurrentIndex
        rcases h with h | h
        · subst h
          rw [if_neg (by simp)]
        · simp only
          rw [if_pos (by exact_mod_cast h)]
  · intro pa
    simp only [StringListParam.load, StringListParam.save, attrValue_single]
    unfold QEditComboM.clear QEditComboM.addItems
    cases hsp : qSplitSkipEmpty pa.combo.text with
    | nil => simp [hsp]
    | cons x rest => simp [hsp]
  · intro pa
    simp [FontParam.load, FontParam.save, attrValue_single]
  · intro pa
    simp [FilePathParam.load, FilePathParam.save, attrValue_single]
  · intro pa
    simp [DirParam.load, DirParam.save, attrValue_single]
  · intro pa
    simp [VariantParam.load, VariantParam.save, attrValue_single]
  · intro pa hv h0 h4
    simp [DateParam.load, DateParam.save, attrValue_single,
      qDateFromISO_dateToISO pa.dateEdit hv h0 h4]
  · intro pa hv
    simp [TimeParam.load, TimeParam.save, attrValue_single,
      qTimeFromISO_timeToISO pa.timeEdit hv]
  · intro pa h1 h2 h3 h4
    have hx : attrValue [("x", intToString pa.xSpin.val),
        ("y", intToString pa.ySpin.val)] "x" = some (intToString pa.xSpin.val) :=
      attrValue_cons_eq _ _ _
    have hy : attrValue [("x", intToString pa.xSpin.val),
        ("y", intToString pa.ySpin.val)] "y" = some (intToString pa.ySpin.val) := by
      rw [attrValue_cons_ne _ _ _ _ (by decide), attrValue_single]
    simp only [PointParam.load, PointParam.save, hx, hy, qToInt_intToString,
      setValue_self h1 h2, setValue_self h3 h4]
  · intro pa h1 h2 h3 h4
    have hw : attrValue [("width", intToString pa.widthSpin.val),
        ("height", intToString pa.heightSpin.val)] "width" =
        some (intToString pa.widthSpin.val) := attrValue_cons_eq _ _ _
    have hh : attrValue [("width", intToString pa.widthSpin.val),
        ("height", intToString pa.heightSpin.val)] "height" =
        some (intToString pa.heightSpin.val) := by
      rw [attrValue_cons_ne _ _ _ _ (by decide), attrValue_single]
    simp only [SizeParam.load, SizeParam.save, hw, hh, qToInt_intToString,
      setValue_self h1 h2, setValue_self h3 h4]
  · intro pa h1 h2 h3 h4 h5 h6 h7 h8
    have hx : attrValue [("x", intToString pa.xSpin.val), ("y", intToString pa.ySpin.val),
        ("width", intToString pa.widthSpin.val),
        ("height", intToString pa.heightSpin.val)] "x" =
        some (intToString pa.xSpin.val) := attrValue_cons_eq _ _ _
    have hy : attrValue [("x", intToString pa.xSpin.val), ("y", intToString pa.ySpin.val),
        ("width", intToString pa.widthSpin.val),
        ("height", intToString pa.heightSpin.val)] "y" =
        some (intToString pa.ySpin.val) := by
      rw [attrValue_cons_ne _ _ _ _ (by decide), attrValue_cons_eq]
    have hw : attrValue [("x", intToString pa.xSpin.val), ("y", intToString pa.ySpin.val),
        ("width", intToString pa.widthSpin.val),
        ("height", intToString pa.heightSpin.val)] "width" =
        some (intToString pa.widthSpin.val) := by
      rw [attrValue_cons_ne _ _ _ _ (by decide), attrValue_cons_ne _ _ _ _ (by decide),
        attrValue_cons_eq]
    have hh : attrValue [("x", intToString pa.xSpin.val), ("y", intToString pa.ySpin.val),
        ("width", intToString pa.widthSpin.val),
        ("height", intToString pa.heightSpin.val)] "height" =
        some (intToString pa.heightSpin.val) := by
      rw [attrValue_cons_ne _ _ _ _ (by decide), attrValue_cons_ne _ _ _ _ (by decide),
        attrValue_cons_ne _ _ _ _ (by decide), attrValue_single]
    simp only [RectParam.load, RectParam.save, hx, hy, hw, hh, qToInt_intToString,
      setValue_self h1 h2, setValue_self h3 h4, setValue_self h5 h6, setValue_self h7 h8]
  · intro pa
    simp [ColorParam.load, ColorParam.save, attrValue_single]
  · decide
  · decide

/-- Witness for C3 amended at concrete parameters, discharging the
range and validity hypotheses of the conditional parts. -/
theorem c3_amended_roundtrip_witness :
    ((List.foldl IntParam.userSet (IntParam.init "Answer" 42 0 100) [7]).load
        (List.foldl IntParam.userSet (IntParam.init "Answer" 42 0 100) [7]).save.2 =
      List.foldl IntParam.userSet (IntParam.init "Answer" 42 0 100) [7]) ∧
    ((ComboParam.init "Options" ["Option 1", "Option 2", "Option 3"] 1 0).load
        (ComboParam.init "Options" ["Option 1", "Option 2", "Option 3"] 1 0).save.2 =
      ComboParam.init "Options" ["Option 1", "Option 2", "Option 3"] 1 0) ∧
    ((DateParam.init "Date" ⟨2024, 5, 7⟩ ⟨2024, 5, 7⟩).load
        (DateParam.init "Date" ⟨2024, 5, 7⟩ ⟨2024, 5, 7⟩).save.2 =
      DateParam.init "Date" ⟨2024, 5, 7⟩ ⟨2024, 5, 7⟩) ∧
    ((TimeParam.init "Time" ⟨12, 30, 45⟩ ⟨12, 30, 45⟩).load
        (TimeParam.init "Time" ⟨12, 30, 45⟩ ⟨12, 30, 45⟩).save.2 =
      TimeParam.init "Time" ⟨12, 30, 45⟩ ⟨12, 30, 45⟩) ∧
    ((PointParam.init "Position" ⟨100, 200⟩ ⟨0, 0⟩).load
        (PointParam.init "Position" ⟨100, 200⟩ ⟨0, 0⟩).save.2 =
      PointParam.init "Position" ⟨100, 200⟩ ⟨0, 0⟩) ∧
    ((SizeParam.init "Size" ⟨800, 600⟩ ⟨0, 0⟩).load
        (SizeParam.init "Size" ⟨800, 600⟩ ⟨0, 0⟩).save.2 =
      SizeParam.init "Size" ⟨800, 600⟩ ⟨0, 0⟩) ∧
    ((RectParam.init "Rect" ⟨10, 10, 200, 100⟩ ⟨0, 0, 0, 0⟩).load
        (RectParam.init "Rect" ⟨10, 10, 200, 100⟩ ⟨0, 0, 0, 0⟩).save.2 =
      RectParam.init "Rect" ⟨10, 10, 200, 100⟩ ⟨0, 0, 0, 0⟩) := by
  obtain ⟨h1, h2, h3, h4, h5, h6, h7, h8, h9, h10, h11, h12, h13, h14, h15, h16, h17⟩ :=
    c3_amended_roundtrip
  exact ⟨h1 "Answer" 42 0 100 (by decide) [7],
    h4 _ (Or.inr (by decide)),
    h10 _ (by decide) (by decide) (by decide),
    h11 _ (by decide),
    h12 _ (by decide) (by decide) (by decide) (by decide),
    h13 _ (by decide) (by decide) (by decide) (by decide),
    h14 _ (by decide) (by decide) (by decide) (by decide)
      (by decide) (by decide) (by decide) (by decide)⟩

/-! ## Claim C4: load pass and duplicate Parameter names -/

/-- A persisted document holding one element, in the whitespace-formatted
shape saveToFile emits. -/
def wrappedDoc (tag : String) (attrs : List (String × String)) : List XmlToken :=
  [.startDocument, .startElement "Params" [], .characters "\n  ",
    .startElement tag attrs, .endElement tag, .characters "\n",
    .endElement "Params", .endDocument]

/-- C4 counterexample: two IntParams both named X (control values 1 and
2), document holding one element X with value 5.  After the load pass the
first holds 5 but the second still holds 2: the second did not receive
the element's data (its load ran against the already-advanced reader,
whose end-element token has no attributes), contradicting the claim that
every matching Parameter receives the same element's data. -/
theorem c4_counterexample_duplicate_names :
    ((((mkParamsEditor.addTab "T").1.addParam 0
          (Param.int (IntParam.init "X" 1 0 100))).addParam 0
          (Param.int (IntParam.init "X" 2 0 100))).loadFromFile
        (some (wrappedDoc "X" [("value", "5")]))).allParams =
      [[Param.int ⟨"X", 1, 1, ⟨0, 100, 5⟩⟩, Param.int ⟨"X", 2, 2, ⟨0, 100, 2⟩⟩]] ∧
    (2 : Int) ≠ 5 := by
  exact ⟨by decide, by decide⟩

theorem loadGroup_no_match (g : List Param) (r : XmlReader)
    (h : ∀ p ∈ g, p.name ≠ r.nameStr) : loadGroup g r = (g, r) := by
  induction g with
  | nil => rfl
  | cons p ps ih =>
    unfold loadGroup
    rw [if_neg (h p (List.mem_cons_self _ _)),
      ih (fun q hq => h q (List.mem_cons_of_mem _ hq))]

theorem loadPass_no_match (tabs : List (List Param)) (r : XmlReader)
    (h : ∀ p ∈ tabs.flatten, p.name ≠ r.nameStr) : loadPass tabs r = (tabs, r) := by
  induction tabs with
  | nil => rfl
  | cons g gs ih =>
    have h1 := loadGroup_no_match g r (fun q hq => h q (by simp [hq]))
    have h2 := ih (fun q hq => h q (by simp at hq ⊢; exact Or.inr hq))
    unfold loadPass
    rw [h1]
    simp [h2]

theorem scanLoop_no_match (toks : List XmlToken) (cur : XmlToken)
    (tabs : List (List Param))
    (h : ∀ t a, XmlToken.startElement t a ∈ toks → ∀ p ∈ tabs.flatten, p.name ≠ t) :
    (scanLoop toks.length tabs ⟨cur, toks⟩).1 = tabs := by
  induction toks generalizing cur with
  | nil => rfl
  | cons t rest ih =>
    show (scanLoop (rest.length + 1) tabs ⟨cur, t :: rest⟩).1 = tabs
    unfold scanLoop
    rw [if_neg (by simp [XmlReader.atEnd])]
    have hnext : XmlReader.readNext ⟨cur, t :: rest⟩ = ⟨t, rest⟩ := rfl
    rw [hnext]
    have hrest : ∀ t' a', XmlToken.startElement t' a' ∈ rest →
        ∀ p ∈ tabs.flatten, p.name ≠ t' :=
      fun t' a' hm => h t' a' (List.mem_cons_of_mem _ hm)
    by_cases hs : (XmlReader.isStartElement ⟨t, rest⟩) = true
    · rw [if_pos hs]
      obtain ⟨tag, a, rfl⟩ : ∃ tag a, t = XmlToken.startElement tag a := by
        cases t
        case startElement tg aa => exact ⟨tg, aa, rfl⟩
        all_goals simp [XmlReader.isStartElement] at hs
      rw [loadPass_no_match tabs ⟨XmlToken.startElement tag a, rest⟩
        (fun p hp => by
          simpa [XmlReader.nameStr] using h tag a (List.mem_cons_self _ _) p hp)]
      exact ih _ hrest
    · rw [if_neg hs]
      exact ih _ hrest

/-- C4 amended: when a loaded element's tag equals the shared name of two
registered Parameters, only the first (in registration order) receives
the element's attributes; the second's deserialize is invoked on the
reader already advanced to the end-element token, which carries no
attributes, so its control is left unchanged.  Elements whose tag matches
no registered Parameter are silently ignored (their attributes reach no
Parameter and the editor state is unchanged). -/
theorem c4_amended_first_match_only :
    (∀ (A B : IntParam), B.name = A.name → A.name ≠ "Params" →
      ∀ (attrs : List (String × String)) (e : ParamsEditor),
        e.allParams = [[Param.int A, Param.int B]] →
        (e.loadFromFile (some (wrappedDoc A.name attrs))).allParams =
          [[Param.int (A.load attrs), Param.int B]]) ∧
    (∀ (tag : String) (attrs : List (String × String)) (e : ParamsEditor),
      (∀ p ∈ e.allParams.flatten, p.name ≠ tag ∧ p.name ≠ "Params") →
      (e.loadFromFile (some (wrappedDoc tag attrs))).allParams = e.allParams) := by
  constructor
  · intro A B hB hn attrs e he
    have hBload : B.load ([] : List (String × String)) = B := rfl
    simp [ParamsEditor.loadFromFile, wrappedDoc, scanLoop, XmlReader.atEnd,
      XmlReader.readNext, XmlReader.isStartElement, loadPass, loadGroup,
      Param.loadR, XmlReader.nameStr, XmlReader.attributes, Param.name,
      Param.loadAttrs, he, hB, hn, hBload]
  · intro tag attrs e h
    have hscan := scanLoop_no_match (wrappedDoc tag attrs) XmlToken.noToken e.allParams ?_
    · simp [ParamsEditor.loadFromFile, hscan]
    · intro t a hmem p hp
      simp only [wrappedDoc, List.mem_cons, List.not_mem_nil, or_false] at hmem
      rcases hmem with h1 | h1 | h1 | h1 | h1 | h1 | h1 | h1 <;>
        first
          | (cases h1; exact (h p hp).2)
          | (cases h1; exact (h p hp).1)
          | exact absurd h1 (by simp)

/-- Witness for C4 amended on concrete duplicate-named parameters and on
an unmatched element. -/
theorem c4_amended_first_match_only_witness :
    ((((mkParamsEditor.addTab "T").1.addParam 0
          (Param.int (IntParam.init "X" 1 0 100))).addParam 0
          (Param.int (IntParam.init "X" 2 0 100))).loadFromFile
        (some (wrappedDoc "X" [("value", "7")]))).allParams =
      [[Param.int ((IntParam.init "X" 1 0 100).load [("value", "7")]),
        Param.int (IntParam.init "X" 2 0 100)]] ∧
    ((((mkParamsEditor.addTab "T").1.addParam 0
          (Param.int (IntParam.init "X" 1 0 100))).loadFromFile
        (some (wrappedDoc "Y" [("value", "7")]))).allParams =
      ((mkParamsEditor.addTab "T").1.addParam 0
          (Param.int (IntParam.init "X" 1 0 100))).allParams) :=
  ⟨c4_amended_first_match_only.1 (IntParam.init "X" 1 0 100) (IntParam.init "X" 2 0 100)
      rfl (by decide) [("value", "7")] _ (by decide),
    c4_amended_first_match_only.2 "Y" [("value", "7")] _ (by decide)⟩

/-! ## Claim C8: addTab indices -/

theorem appendAt_length (ls : List (List Param)) (i : Nat) (p : Param) :
    (appendAt ls i p).length = ls.length := by
  induction ls generalizing i with
  | nil => rfl
  | cons g t ih =>
    cases i with
    | zero => rfl
    | succ n => simp [appendAt, ih]

theorem addParam_tabTitles (e : ParamsEditor) (i : Int) (p : Param) :
    (e.addParam i p).tabTitles = e.tabTitles := by
  unfold ParamsEditor.addParam
  split <;> rfl

theorem addParam_allParams_length (e : ParamsEditor) (i : Int) (p : Param) :
    (e.addParam i p).allParams.length = e.allParams.length := by
  unfold ParamsEditor.addParam
  split
  · rfl
  · simp [appendAt_length]

theorem setMainHelp_tabTitles_le (e : ParamsEditor) (h : String) :
    e.tabTitles.length ≤ (e.setMainHelp h).tabTitles.length := by
  unfold ParamsEditor.setMainHelp
  split
  · exact le_refl _
  · simp

theorem addTab_tabTitles_length (e : ParamsEditor) (t : String) :
    ((e.addTab t).1).tabTitles.length = e.tabTitles.length + 1 := by
  simp [ParamsEditor.addTab]

theorem addTabIndices_lb (ops : List EdOp) :
    ∀ (e : ParamsEditor) (i : Nat), i ∈ addTabIndices e ops → e.tabTitles.length ≤ i := by
  induction ops with
  | nil =>
    intro e i h
    simp [addTabIndices] at h
  | cons op rest ih =>
    intro e i h
    cases op with
    | addTab t =>
      rcases List.mem_cons.mp h with h1 | h1
      · omega
      · have h2 := ih _ _ h1
        rw [addTab_tabTitles_length] at h2
        omega
    | setMainHelp s =>
      have h2 := ih _ _ h
      have h3 := setMainHelp_tabTitles_le e s
      omega
    | addParam j p =>
      have h2 := ih _ _ h
      rw [addParam_tabTitles] at h2
      exact h2

theorem addTabIndices_chain (ops : List EdOp) :
    ∀ e : ParamsEditor, List.Chain' (· < ·) (addTabIndices e ops) := by
  induction ops with
  | nil =>
    intro e
    simp [addTabIndices]
  | cons op rest ih =>
    intro e
    cases op with
    | addTab t =>
      show List.Chain' _ (e.tabTitles.length :: addTabIndices (e.addTab t).1 rest)
      rw [List.chain'_cons']
      refine ⟨?_, ih _⟩
      intro b hb
      have hmem : b ∈ addTabIndices (e.addTab t).1 rest := List.mem_of_mem_head? hb
      have hlb := addTabIndices_lb rest (e.addTab t).1 b hmem
      rw [addTab_tabTitles_length] at hlb
      omega
    | setMainHelp s => exact ih _
    | addParam j p => exact ih _

theorem addTabIndices_nohelp (ops : List EdOp) :
    ∀ e : ParamsEditor, (∀ op ∈ ops, op.isSetMainHelp = false) →
      addTabIndices e ops = List.range' e.tabTitles.length (ops.countP EdOp.isAddTab) := by
  induction ops with
  | nil =>
    intro e _
    simp [addTabIndices]
  | cons op rest ih =>
    intro e h
    cases op with
    | addTab t =>
      have hc : (EdOp.addTab t :: rest).countP EdOp.isAddTab =
          rest.countP EdOp.isAddTab + 1 := by
        simp [List.countP_cons, EdOp.isAddTab]
      rw [hc]
      show e.tabTitles.length :: addTabIndices (e.addTab t).1 rest = _
      rw [ih _ (fun o ho => h o (List.mem_cons_of_mem _ ho)), addTab_tabTitles_length]
      rfl
    | setMainHelp s =>
      have := h _ (List.mem_cons_self _ _)
      simp [EdOp.isSetMainHelp] at this
    | addParam j p =>
      have hc : (EdOp.addParam j p :: rest).countP EdOp.isAddTab =
          rest.countP EdOp.isAddTab := by
        simp [List.countP_cons, EdOp.isAddTab]
      rw [hc]
      show addTabIndices (e.addParam j p) rest = _
      rw [ih _ (fun o ho => h o (List.mem_cons_of_mem _ ho)), addParam_tabTitles]

theorem runOps_nohelp_allParams_length (ops : List EdOp) :
    ∀ e : ParamsEditor, (∀ op ∈ ops, op.isSetMainHelp = false) →
      (e.runOps ops).allParams.length = e.allParams.length + ops.countP EdOp.isAddTab := by
  induction ops with
  | nil =>
    intro e _
    simp [ParamsEditor.runOps]
  | cons op rest ih =>
    intro e h
    cases op with
    | addTab t =>
      show ((e.addTab t).1.runOps rest).allParams.length = _
      rw [ih _ (fun o ho => h o (List.mem_cons_of_mem _ ho))]
      have : ((e.addTab t).1).allParams.length = e.allParams.length + 1 := by
        simp [ParamsEditor.addTab]
      rw [this]
      simp [List.countP_cons, EdOp.isAddTab]
      omega
    | setMainHelp s =>
      have := h _ (List.mem_cons_self _ _)
      simp [EdOp.isSetMainHelp] at this
    | addParam j p =>
      show ((e.addParam j p).runOps rest).allParams.length = _
      rw [ih _ (fun o ho => h o (List.mem_cons_of_mem _ ho)), addParam_allParams_length]
      simp [List.countP_cons, EdOp.isAddTab]

/-- C8 counterexample: after a setMainHelp call on a fresh editor, the
first addTab call returns index 1, not 0 as "monotonically increasing
starting from zero" requires, and registering through that index is
rejected by addParam (the parameter-group vector is shorter than the tab
widget because the help tab has no group). -/
theorem c8_counterexample_help_tab :
    ((mkParamsEditor.setMainHelp "help").addTab "Settings").2 = 1 ∧ (1 : Nat) ≠ 0 ∧
    ((((mkParamsEditor.setMainHelp "help").addTab "Settings").1).addParam 1
        (Param.string (StringParam.init "S" "" ""))).allParams =
      (((mkParamsEditor.setMainHelp "help").addTab "Settings").1).allParams := by
  exact ⟨rfl, by decide, by decide⟩

/-- C8 amended: every addTab appends a new empty Tab Group and returns
the tab widget's page count before insertion.  Over any operation
sequence the indices returned by successive addTab calls are strictly
increasing; provided no setMainHelp call has created the help tab, they
are consecutive starting from zero and each is valid for subsequent
addParam registration (addParam then appends into the group at that
index); once the help tab exists the returned indices exceed the
parameter-group positions, as the counterexample shows. -/
theorem c8_amended_addtab_indices :
    (∀ (e : ParamsEditor) (ops : List EdOp), List.Chain' (· < ·) (addTabIndices e ops)) ∧
    (∀ ops : List EdOp, (∀ op ∈ ops, op.isSetMainHelp = false) →
      addTabIndices mkParamsEditor ops = List.range' 0 (ops.countP EdOp.isAddTab) ∧
      (mkParamsEditor.runOps ops).allParams.length = ops.countP EdOp.isAddTab ∧
      (∀ i ∈ addTabIndices mkParamsEditor ops, ∀ q : Param,
        ((mkParamsEditor.runOps ops).addParam (i : Int) q).allParams =
          appendAt (mkParamsEditor.runOps ops).allParams i q)) := by
  constructor
  · intro e ops
    exact addTabIndices_chain ops e
  · intro ops h
    have hidx : addTabIndices mkParamsEditor ops =
        List.range' 0 (ops.countP EdOp.isAddTab) := by
      simpa [mkParamsEditor] using addTabIndices_nohelp ops mkParamsEditor h
    have hlen : (mkParamsEditor.runOps ops).allParams.length =
        ops.countP EdOp.isAddTab := by
      simpa [mkParamsEditor] using runOps_nohelp_allParams_length ops mkParamsEditor h
    refine ⟨hidx, hlen, ?_⟩
    intro i hi q
    rw [hidx] at hi
    have hbound : i < ops.countP EdOp.isAddTab := by
      have := List.mem_range'_1.mp hi
      omega
    unfold ParamsEditor.addParam
    rw [if_neg]
    · simp
    · rw [hlen]
      omega

/-- Witness for C8 amended on a concrete operation sequence. -/
theorem c8_amended_addtab_indices_witness :
    List.Chain' (· < ·) (addTabIndices mkParamsEditor
      [EdOp.addTab "A", EdOp.setMainHelp "h", EdOp.addTab "B"]) ∧
    addTabIndices mkParamsEditor [EdOp.addTab "A", EdOp.addTab "B"] = List.range' 0 2 ∧
    ((mkParamsEditor.runOps [EdOp.addTab "A", EdOp.addTab "B"]).addParam (1 : Int)
        (Param.string (StringParam.init "S" "" ""))).allParams =
      appendAt (mkParamsEditor.runOps [EdOp.addTab "A", EdOp.addTab "B"]).allParams 1
        (Param.string (StringParam.init "S" "" "")) :=
  ⟨c8_amended_addtab_indices.1 mkParamsEditor
      [EdOp.addTab "A", EdOp.setMainHelp "h", EdOp.addTab "B"],
    (c8_amended_addtab_indices.2 [EdOp.addTab "A", EdOp.addTab "B"] (by decide)).1,
    (c8_amended_addtab_indices.2 [EdOp.addTab "A", EdOp.addTab "B"] (by decide)).2.2 1
      (by decide) (Param.string (StringParam.init "S" "" ""))⟩

/-! ## Claim C5: binder type coverage and category routing

Helper notions: the order of first occurrence of the routed categories
(the tab list the binder builds), and the index of a title in the tab
list (the content of the category-to-tab map). -/

/-- Append each element of l to acc unless already present: the tab-title
list after the binder has routed the categories l into an editor whose
tab list was acc. -/
def firstOccurFrom (acc : List String) : List String → List String
  | [] => acc
  | c :: rest => firstOccurFrom (if c ∈ acc then acc else acc ++ [c]) rest

/-- Position of a title in the tab list. -/
def titleIndex (l : List String) (c : String) : Option Nat :=
  match l with
  | [] => none
  | t :: ts => if t = c then some 0 else (titleIndex ts c).map (· + 1)

theorem getD_ge_length {α : Type} (l : List α) (d : α) (j : Nat) (h : l.length ≤ j) :
    l.getD j d = d := by
  induction l generalizing j with
  | nil => cases j <;> rfl
  | cons a t ih =>
    cases j with
    | zero => simp at h
    | succ n => exact ih n (by simpa using h)

theorem getD_append_left {α : Type} (l l' : List α) (d : α) (j : Nat) (h : j < l.length) :
    (l ++ l').getD j d = l.getD j d := by
  induction l generalizing j with
  | nil => simp at h
  | cons a t ih =>
    cases j with
    | zero => rfl
    | succ n => exact ih n (by simpa using h)

theorem getD_append_self {α : Type} (l : List α) (x : α) (l' : List α) (d : α) :
    (l ++ x :: l').getD l.length d = x := by
  induction l with
  | nil => rfl
  | cons a t ih => exact ih

theorem getD_mem {α : Type} (l : List α) (d : α) (j : Nat) (h : j < l.length) :
    l.getD j d ∈ l := by
  induction l generalizing j with
  | nil => simp at h
  | cons a t ih =>
    cases j with
    | zero => exact List.mem_cons_self _ _
    | succ n => exact List.mem_cons_of_mem _ (ih n (by simpa using h))

theorem nodup_getD_inj {α : Type} (l : List α) (d : α) (hl : l.Nodup) :
    ∀ i j, i < l.length → j < l.length → l.getD i d = l.getD j d → i = j := by
  induction l with
  | nil => intro i j hi; simp at hi
  | cons a t ih =>
    intro i j hi hj heq
    obtain ⟨hna, hnt⟩ := List.nodup_cons.mp hl
    cases i with
    | zero =>
      cases j with
      | zero => rfl
      | succ n =>
        exfalso
        have : a = t.getD n d := heq
        rw [this] at hna
        exact hna (getD_mem t d n (by simpa using hj))
    | succ m =>
      cases j with
      | zero =>
        exfalso
        have : t.getD m d = a := heq
        rw [← this] at hna
        exact hna (getD_mem t d m (by simpa using hi))
      | succ n =>
        have := ih hnt m n (by simpa using hi) (by simpa using hj) heq
        omega

theorem firstOccurFrom_prefix (l : List String) :
    ∀ acc, ∃ ext, firstOccurFrom acc l = acc ++ ext := by
  induction l with
  | nil => intro acc; exact ⟨[], by simp [firstOccurFrom]⟩
  | cons c rest ih =>
    intro acc
    show ∃ ext, firstOccurFrom (if c ∈ acc then acc else acc ++ [c]) rest = acc ++ ext
    by_cases hc : c ∈ acc
    · rw [if_pos hc]; exact ih acc
    · rw [if_neg hc]
      obtain ⟨ext, hext⟩ := ih (acc ++ [c])
      exact ⟨[c] ++ ext, by rw [hext, List.append_assoc]⟩

theorem firstOccurFrom_nodup (l : List String) :
    ∀ acc, acc.Nodup → (firstOccurFrom acc l).Nodup := by
  induction l with
  | nil => intro acc h; exact h
  | cons c rest ih =>
    intro acc h
    show (firstOccurFrom (if c ∈ acc then acc else acc ++ [c]) rest).Nodup
    by_cases hc : c ∈ acc
    · rw [if_pos hc]; exact ih acc h
    · rw [if_neg hc]
      exact ih (acc ++ [c]) (by simp [List.nodup_append, h, hc])

theorem titleIndex_none_iff (l : List String) (c : String) :
    titleIndex l c = none ↔ c ∉ l := by
  induction l with
  | nil => simp [titleIndex]
  | cons t ts ih =>
    unfold titleIndex
    by_cases h : t = c
    · simp [h]
    · rw [if_neg h, Option.map_eq_none', ih]
      simp only [List.mem_cons, not_or]
      constructor
      · intro hn
        exact ⟨fun he => h he.symm, hn⟩
      · intro hn
        exact hn.2

theorem titleIndex_spec (l : List String) (c : String) :
    ∀ i, titleIndex l c = some i → i < l.length ∧ l.getD i "" = c := by
  induction l with
  | nil => intro i h; simp [titleIndex] at h
  | cons t ts ih =>
    intro i h
    unfold titleIndex at h
    by_cases ht : t = c
    · rw [if_pos ht] at h
      cases h
      exact ⟨by simp, ht⟩
    · rw [if_neg ht] at h
      rcases Option.map_eq_some'.mp h with ⟨j, hj, rfl⟩
      obtain ⟨h1, h2⟩ := ih j hj
      exact ⟨by simpa using h1, h2⟩

theorem titleIndex_append_single (l : List String) (c c' : String) :
    titleIndex (l ++ [c]) c' =
      match titleIndex l c' with
      | some i => some i
      | none => if c' = c then some l.length else none := by
  induction l with
  | nil =>
    by_cases h : c = c' <;>
      simp [titleIndex, h, eq_comm]
  | cons t ts ih =>
    unfold titleIndex
    by_cases h : t = c'
    · simp [h]
    · simp only [List.cons_append, if_neg h, ih]
      cases hts : titleIndex ts c' with
      | some j => rfl
      | none =>
        by_cases hc : c' = c <;> simp [hc]

theorem assocLookup_append_single {α : Type} (m : List (String × α)) (c c' : String) (v : α) :
    assocLookup (m ++ [(c, v)]) c' =
      match assocLookup m c' with
      | some x => some x
      | none => if c' = c then some v else none := by
  induction m with
  | nil => simp [assocLookup, eq_comm]
  | cons a t ih =>
    unfold assocLookup
    by_cases h : a.1 = c'
    · simp [h]
    · simpa [h] using ih

theorem appendAt_getD_eq (ls : List (List Param)) (i : Nat) (p : Param)
    (h : i < ls.length) : (appendAt ls i p).getD i [] = ls.getD i [] ++ [p] := by
  induction ls generalizing i with
  | nil => simp at h
  | cons g t ih =>
    cases i with
    | zero => rfl
    | succ n => exact ih n (by simpa using h)

theorem appendAt_getD_ne (ls : List (List Param)) (i j : Nat) (p : Param)
    (h : j ≠ i) : (appendAt ls i p).getD j [] = ls.getD j [] := by
  induction ls generalizing i j with
  | nil => rfl
  | cons g t ih =>
    cases i with
    | zero =>
      cases j with
      | zero => exact absurd rfl h
      | succ n => rfl
    | succ m =>
      cases j with
      | zero => rfl
      | succ n => exact ih m n (by omega)

theorem appendAt_sum (ls : List (List Param)) (i : Nat) (p : Param) (h : i < ls.length) :
    ((appendAt ls i p).map List.length).sum = (ls.map List.length).sum + 1 := by
  induction ls generalizing i with
  | nil => simp at h
  | cons g t ih =>
    cases i with
    | zero => simp [appendAt]; omega
    | succ n =>
      have := ih n (by simpa using h)
      simp only [appendAt, List.map_cons, List.sum_cons, this]
      omega

theorem mkParamFor_isSome (p : MetaProp) (info : PropertyInfo) :
    (mkParamFor p info).isSome = p.ptype.isSupported := by
  obtain ⟨nm, ty, w, v⟩ := p
  cases ty <;> rfl

theorem getD_append_nil_group (ls : List (List Param)) (j : Nat) :
    (ls ++ [[]]).getD j [] = ls.getD j [] := by
  rcases Nat.lt_or_ge j ls.length with h1 | h1
  · exact getD_append_left _ _ _ _ h1
  · rcases Nat.eq_or_lt_of_le h1 with h2 | h2
    · rw [← h2, getD_append_self, getD_ge_length _ _ _ (le_refl _)]
    · rw [getD_ge_length _ _ _ (by simpa using h2),
        getD_ge_length _ _ _ (by omega)]

theorem sum_append_nil_group (ls : List (List Param)) :
    ((ls ++ [[]]).map List.length).sum = (ls.map List.length).sum := by
  simp

/-- Characterization of the binder loop from a state whose category map
is exactly the title-to-index table of the editor's tabs: the final tab
list extends the initial one by the routed categories in order of first
occurrence, parameter groups stay aligned with tabs, and each group ends
holding exactly the Parameters of the writable supported properties
routed to its title, in property order; the total number of created
Parameters is the number of writable supported properties. -/
theorem bindLoop_characterization (obj : BoundObject) (d : String) :
    ∀ (props : List MetaProp) (e : ParamsEditor) (catMap : List (String × Nat)),
      e.allParams.length = e.tabTitles.length →
      e.tabTitles.Nodup →
      (∀ c, assocLookup catMap c = titleIndex e.tabTitles c) →
      (bindLoop obj d e catMap props).tabTitles =
        firstOccurFrom e.tabTitles
          ((props.filter (fun p => p.writable)).map (resolvedCategory obj d)) ∧
      (bindLoop obj d e catMap props).allParams.length =
        (bindLoop obj d e catMap props).tabTitles.length ∧
      (bindLoop obj d e catMap props).tabTitles.Nodup ∧
      (∀ j, j < (bindLoop obj d e catMap props).tabTitles.length →
        (bindLoop obj d e catMap props).allParams.getD j [] =
          e.allParams.getD j [] ++
            (((props.filter (fun p => p.writable)).filter
                (fun p => resolvedCategory obj d p =
                  (bindLoop obj d e catMap props).tabTitles.getD j "")).filterMap
              (fun p => mkParamFor p (extractPropertyInfo obj p)))) ∧
      ((bindLoop obj d e catMap props).allParams.map List.length).sum =
        (e.allParams.map List.length).sum +
          ((props.filter (fun p => p.writable)).filter
            (fun p => p.ptype.isSupported)).length := by
  intro props
  induction props with
  | nil =>
    intro e catMap h1 h2 h3
    have hb : bindLoop obj d e catMap ([] : List MetaProp) = e := rfl
    refine ⟨by rw [hb]; rfl, by rw [hb]; exact h1, by rw [hb]; exact h2, ?_, by rw [hb]; simp⟩
    intro j hj
    rw [hb]
    simp
  | cons p rest ih =>
    intro e catMap h1 h2 h3
    have hcat : (if (extractPropertyInfo obj p).category = "" then d
        else (extractPropertyInfo obj p).category) = resolvedCategory obj d p := rfl
    by_cases hw : p.writable
    · have hfilter : (p :: rest).filter (fun q => q.writable) =
          p :: rest.filter (fun q => q.writable) := by
        simp [List.filter_cons, hw]
      cases hlk : assocLookup catMap (resolvedCategory obj d p) with
      | some i =>
        have htix : titleIndex e.tabTitles (resolvedCategory obj d p) = some i := by
          rw [← h3]
          exact hlk
        obtain ⟨hiLen, hiTitle⟩ := titleIndex_spec e.tabTitles (resolvedCategory obj d p) i htix
        have hmemc : resolvedCategory obj d p ∈ e.tabTitles := by
          rw [← hiTitle]
          exact getD_mem _ _ _ hiLen
        have hstep : bindLoop obj d e catMap (p :: rest) =
            bindLoop obj d (createParamForProperty e i p (extractPropertyInfo obj p))
              catMap rest := by
          simp only [bindLoop, if_pos hw]
          rw [hcat, hlk]
        have hfirst : firstOccurFrom e.tabTitles
            (((p :: rest).filter (fun q => q.writable)).map (resolvedCategory obj d)) =
            firstOccurFrom e.tabTitles
              ((rest.filter (fun q => q.writable)).map (resolvedCategory obj d)) := by
          rw [hfilter]
          show firstOccurFrom (if resolvedCategory obj d p ∈ e.tabTitles then e.tabTitles
            else e.tabTitles ++ [resolvedCategory obj d p]) _ = _
          rw [if_pos hmemc]
        cases hmk : mkParamFor p (extractPropertyInfo obj p) with
        | some pr =>
          have hsupp : p.ptype.isSupported = true := by
            rw [← mkParamFor_isSome p (extractPropertyInfo obj p), hmk]
            rfl
          have hbound : i < e.allParams.length := by
            rw [h1]
            exact hiLen
          have hcreate : createParamForProperty e i p (extractPropertyInfo obj p) =
              { e with allParams := appendAt e.allParams i pr } := by
            unfold createParamForProperty
            rw [hmk]
            show ParamsEditor.addParam e (i : Int) pr = _
            unfold ParamsEditor.addParam
            rw [if_neg (by omega)]
            rfl
          rw [hcreate] at hstep
          rw [hstep]
          obtain ⟨ih1, ih2, ih3, ih4, ih5⟩ :=
            ih { e with allParams := appendAt e.allParams i pr } catMap
              (by simpa [appendAt_length] using h1) h2 h3
          obtain ⟨ext, hext⟩ := firstOccurFrom_prefix
            ((rest.filter (fun q => q.writable)).map (resolvedCategory obj d))
            e.tabTitles
          have hpre : (bindLoop obj d { e with allParams := appendAt e.allParams i pr }
              catMap rest).tabTitles = e.tabTitles ++ ext := by
            rw [ih1]
            exact hext
          refine ⟨?_, ih2, ih3, ?_, ?_⟩
          · rw [ih1, hfirst]
          · intro j hj
            have hg := ih4 j hj
            have hTi : (bindLoop obj d { e with allParams := appendAt e.allParams i pr }
                catMap rest).tabTitles.getD i "" = resolvedCategory obj d p := by
              rw [hpre, getD_append_left _ _ _ _ hiLen]
              exact hiTitle
            rw [hfilter]
            by_cases hTj : resolvedCategory obj d p =
                (bindLoop obj d { e with allParams := appendAt e.allParams i pr }
                  catMap rest).tabTitles.getD j ""
            · have hij : j = i := by
                refine nodup_getD_inj _ "" ih3 j i hj ?_ ?_
                · rw [hpre]
                  simp only [List.length_append]
                  omega
                · rw [hTi, ← hTj]
              subst hij
              rw [hg]
              simp only [List.filter_cons]
              rw [if_pos (by simpa using hTj), List.filterMap_cons, hmk]
              show (appendAt e.allParams j pr).getD j [] ++ _ = _
              rw [appendAt_getD_eq _ _ _ hbound, List.append_assoc]
              rfl
            · have hij : j ≠ i := by
                intro he
                rw [he, hTi] at hTj
                exact hTj rfl
              rw [hg]
              simp only [List.filter_cons]
              rw [if_neg (by simpa using hTj)]
              show (appendAt e.allParams i pr).getD j [] ++ _ = _
              rw [appendAt_getD_ne _ _ _ _ hij]
          · rw [ih5]
            show ((appendAt e.allParams i pr).map List.length).sum + _ = _
            rw [appendAt_sum _ _ _ hbound, hfilter]
            simp only [List.filter_cons, hsupp, if_pos, List.length_cons]
            omega
        | none =>
          have hsupp : p.ptype.isSupported = false := by
            rw [← mkParamFor_isSome p (extractPropertyInfo obj p), hmk]
            rfl
          have hcreate : createParamForProperty e i p (extractPropertyInfo obj p) = e := by
            unfold createParamForProperty
            rw [hmk]
          rw [hcreate] at hstep
          rw [hstep]
          obtain ⟨ih1, ih2, ih3, ih4, ih5⟩ := ih e catMap h1 h2 h3
          refine ⟨by rw [ih1, hfirst], ih2, ih3, ?_, ?_⟩
          · intro j hj
            have hg := ih4 j hj
            rw [hg, hfilter]
            by_cases hTj : resolvedCategory obj d p =
                (bindLoop obj d e catMap rest).tabTitles.getD j ""
            · simp only [List.filter_cons]
              rw [if_pos (by simpa using hTj), List.filterMap_cons, hmk]
            · simp only [List.filter_cons]
              rw [if_neg (by simpa using hTj)]
          · rw [ih5, hfilter]
            simp [List.filter_cons, hsupp]
      | none =>
        have hnotmem : resolvedCategory obj d p ∉ e.tabTitles := by
          refine (titleIndex_none_iff _ _).mp ?_
          rw [← h3]
          exact hlk
        have hstep : bindLoop obj d e catMap (p :: rest) =
            bindLoop obj d
              (createParamForProperty (e.addTab (resolvedCategory obj d p)).1
                (e.addTab (resolvedCategory obj d p)).2 p (extractPropertyInfo obj p))
              (catMap ++ [(resolvedCategory obj d p,
                (e.addTab (resolvedCategory obj d p)).2)]) rest := by
          simp only [bindLoop, if_pos hw]
          rw [hcat, hlk]
        have haddt1 : (e.addTab (resolvedCategory obj d p)).1 =
            { e with tabTitles := e.tabTitles ++ [resolvedCategory obj d p],
                     allParams := e.allParams ++ [[]] } := rfl
        have haddt2 : (e.addTab (resolvedCategory obj d p)).2 = e.tabTitles.length := rfl
        rw [haddt1, haddt2] at hstep
        have h2' : (e.tabTitles ++ [resolvedCategory obj d p]).Nodup := by
          simp [List.nodup_append, h2, hnotmem]
        have h3' : ∀ c', assocLookup (catMap ++ [(resolvedCategory obj d p,
            e.tabTitles.length)]) c' =
            titleIndex (e.tabTitles ++ [resolvedCategory obj d p]) c' := by
          intro c'
          rw [assocLookup_append_single, titleIndex_append_single, h3 c']
          cases titleIndex e.tabTitles c' <;> rfl
        have hfirst : firstOccurFrom e.tabTitles
            (((p :: rest).filter (fun q => q.writable)).map (resolvedCategory obj d)) =
            firstOccurFrom (e.tabTitles ++ [resolvedCategory obj d p])
              ((rest.filter (fun q => q.writable)).map (resolvedCategory obj d)) := by
          rw [hfilter]
          show firstOccurFrom (if resolvedCategory obj d p ∈ e.tabTitles then e.tabTitles
            else e.tabTitles ++ [resolvedCategory obj d p]) _ = _
          rw [if_neg hnotmem]
        cases hmk : mkParamFor p (extractPropertyInfo obj p) with
        | some pr =>
          have hsupp : p.ptype.isSupported = true := by
            rw [← mkParamFor_isSome p (extractPropertyInfo obj p), hmk]
            rfl
          have hbound2 : e.tabTitles.length < (e.allParams ++ [[]]).length := by
            simp [h1]
          have hcreate : createParamForProperty
              { e with tabTitles := e.tabTitles ++ [resolvedCategory obj d p],
                       allParams := e.allParams ++ [[]] } e.tabTitles.length p
              (extractPropertyInfo obj p) =
              { e with tabTitles := e.tabTitles ++ [resolvedCategory obj d p],
                       allParams := appendAt (e.allParams ++ [[]])
                         e.tabTitles.length pr } := by
            unfold createParamForProperty
            rw [hmk]
            show ParamsEditor.addParam
              { e with tabTitles := e.tabTitles ++ [resolvedCategory obj d p],
                       allParams := e.allParams ++ [[]] }
              (e.tabTitles.length : Int) pr = _
            unfold ParamsEditor.addParam
            rw [if_neg (by
              simp only [List.length_append, List.length_cons, List.length_nil]
              omega)]
            rfl
          rw [hstep, hcreate]
          obtain ⟨ih1, ih2, ih3, ih4, ih5⟩ :=
            ih { e with tabTitles := e.tabTitles ++ [resolvedCategory obj d p],
                        allParams := appendAt (e.allParams ++ [[]])
                          e.tabTitles.length pr }
              (catMap ++ [(resolvedCategory obj d p, e.tabTitles.length)])
              (by simp [appendAt_length, h1])
              h2'
              h3'
          obtain ⟨ext, hext⟩ := firstOccurFrom_prefix
            ((rest.filter (fun q => q.writable)).map (resolvedCategory obj d))
            (e.tabTitles ++ [resolvedCategory obj d p])
          have hpre : (bindLoop obj d
              { e with tabTitles := e.tabTitles ++ [resolvedCategory obj d p],
                       allParams := appendAt (e.allParams ++ [[]])
                         e.tabTitles.length pr }
              (catMap ++ [(resolvedCategory obj d p, e.tabTitles.length)])
              rest).tabTitles =
              (e.tabTitles ++ [resolvedCategory obj d p]) ++ ext := by
            rw [ih1, hext]
          refine ⟨by rw [ih1, hfirst], ih2, ih3, ?_, ?_⟩
          · intro j hj
            have hg := ih4 j hj
            have hTi : (bindLoop obj d
                { e with tabTitles := e.tabTitles ++ [resolvedCategory obj d p],
                         allParams := appendAt (e.allParams ++ [[]])
                           e.tabTitles.length pr }
                (catMap ++ [(resolvedCategory obj d p, e.tabTitles.length)])
                rest).tabTitles.getD e.tabTitles.length "" =
                resolvedCategory obj d p := by
              rw [hpre, getD_append_left _ _ _ _ (by simp), getD_append_self]
            rw [hfilter]
            by_cases hTj : resolvedCategory obj d p =
                (bindLoop obj d
                  { e with tabTitles := e.tabTitles ++ [resolvedCategory obj d p],
                           allParams := appendAt (e.allParams ++ [[]])
                             e.tabTitles.length pr }
                  (catMap ++ [(resolvedCategory obj d p, e.tabTitles.length)])
                  rest).tabTitles.getD j ""
            · have hij : j = e.tabTitles.length := by
                refine nodup_getD_inj _ "" ih3 j e.tabTitles.length hj ?_ ?_
                · rw [hpre]
                  simp only [List.length_append, List.length_cons, List.length_nil]
                  omega
                · rw [hTi, ← hTj]
              subst hij
              rw [hg]
              simp only [List.filter_cons]
              rw [if_pos (by simpa using hTj), List.filterMap_cons, hmk]
              show (appendAt (e.allParams ++ [[]]) e.tabTitles.length pr).getD
                e.tabTitles.length [] ++ _ = _
              rw [appendAt_getD_eq _ _ _ hbound2]
              have hnil : (e.allParams ++ [[]]).getD e.tabTitles.length [] = [] := by
                rw [← h1, getD_append_self]
              have hout : e.allParams.getD e.tabTitles.length [] = [] :=
                getD_ge_length _ _ _ (by omega)
              rw [hnil, hout]
              rfl
            · have hij : j ≠ e.tabTitles.length := by
                intro he
                rw [he, hTi] at hTj
                exact hTj rfl
              rw [hg]
              simp only [List.filter_cons]
              rw [if_neg (by simpa using hTj)]
              show (appendAt (e.allParams ++ [[]]) e.tabTitles.length pr).getD j [] ++ _ = _
              rw [appendAt_getD_ne _ _ _ _ hij, getD_append_nil_group]
          · rw [ih5]
            show ((appendAt (e.allParams ++ [[]]) e.tabTitles.length pr).map
              List.length).sum + _ = _
            rw [appendAt_sum _ _ _ hbound2, sum_append_nil_group, hfilter]
            simp only [List.filter_cons, hsupp, if_pos, List.length_cons]
            omega
        | none =>
          have hsupp : p.ptype.isSupported = false := by
            rw [← mkParamFor_isSome p (extractPropertyInfo obj p), hmk]
            rfl
          have hcreate : createParamForProperty
              { e with tabTitles := e.tabTitles ++ [resolvedCategory obj d p],
                       allParams := e.allParams ++ [[]] } e.tabTitles.length p
              (extractPropertyInfo obj p) =
              { e with tabTitles := e.tabTitles ++ [resolvedCategory obj d p],
                       allParams := e.allParams ++ [[]] } := by
            unfold createParamForProperty
            rw [hmk]
          rw [hstep, hcreate]
          obtain ⟨ih1, ih2, ih3, ih4, ih5⟩ :=
            ih { e with tabTitles := e.tabTitles ++ [resolvedCategory obj d p],
                        allParams := e.allParams ++ [[]] }
              (catMap ++ [(resolvedCategory obj d p, e.tabTitles.length)])
              (by simp [h1])
              h2'
              h3'
          refine ⟨by rw [ih1, hfirst], ih2, ih3, ?_, ?_⟩
          · intro j hj
            have hg := ih4 j hj
            rw [hg, hfilter]
            show (e.allParams ++ [[]]).getD j [] ++ _ = _
            rw [getD_append_nil_group]
            by_cases hTj : resolvedCategory obj d p =
                (bindLoop obj d
                  { e with tabTitles := e.tabTitles ++ [resolvedCategory obj d p],
                           allParams := e.allParams ++ [[]] }
                  (catMap ++ [(resolvedCategory obj d p, e.tabTitles.length)])
                  rest).tabTitles.getD j ""
            · simp only [List.filter_cons]
              rw [if_pos (by simpa using hTj), List.filterMap_cons, hmk]
            · simp only [List.filter_cons]
              rw [if_neg (by simpa using hTj)]
          · rw [ih5, sum_append_nil_group, hfilter]
            simp [List.filter_cons, hsupp]
    · have hstep : bindLoop obj d e catMap (p :: rest) = bindLoop obj d e catMap rest := by
        simp only [bindLoop, if_neg hw]
      have hfilter : (p :: rest).filter (fun q => q.writable) =
          rest.filter (fun q => q.writable) := by
        simp [List.filter_cons, hw]
      rw [hstep, hfilter]
      exact ih e catMap h1 h2 h3

/-- C5: on a fresh editor, bindObjectToEditor creates exactly one
Parameter per writable supported property and none for unsupported ones
(the total created equals the number of writable supported properties,
and unsupported properties contribute nothing to any group); the tab list
is the routed categories in order of first occurrence — each category's
Tab Group created on first use — and the group at each tab index holds
exactly the Parameters of the properties whose resolved category is that
tab's title, in property order (reuse on every later occurrence).  The
resolved category is the Category sibling's value and the caller's
default tab name when the sibling is absent (or empty). -/
theorem c5_binder_type_coverage (obj : BoundObject) (d : String) :
    (bindObjectToEditor mkParamsEditor obj d).tabTitles =
      firstOccurFrom []
        ((obj.props.filter (fun p => p.writable)).map (resolvedCategory obj d)) ∧
    (bindObjectToEditor mkParamsEditor obj d).allParams.length =
      (bindObjectToEditor mkParamsEditor obj d).tabTitles.length ∧
    (∀ j, j < (bindObjectToEditor mkParamsEditor obj d).tabTitles.length →
      (bindObjectToEditor mkParamsEditor obj d).allParams.getD j [] =
        ((obj.props.filter (fun p => p.writable)).filter
            (fun p => resolvedCategory obj d p =
              (bindObjectToEditor mkParamsEditor obj d).tabTitles.getD j "")).filterMap
          (fun p => mkParamFor p (extractPropertyInfo obj p))) ∧
    ((bindObjectToEditor mkParamsEditor obj d).allParams.map List.length).sum =
      ((obj.props.filter (fun p => p.writable)).filter
        (fun p => p.ptype.isSupported)).length := by
  obtain ⟨h1, h2, h3, h4, h5⟩ := bindLoop_characterization obj d obj.props mkParamsEditor []
    rfl List.nodup_nil (fun c => rfl)
  refine ⟨h1, h2, ?_, ?_⟩
  · intro j hj
    have hg := h4 j hj
    simpa [mkParamsEditor] using hg
  · simpa [mkParamsEditor] using h5

/-- A bound object exercising the binder: one writable property of
several supported declared types (including an enum), a non-writable
metadata property, an unsupported-type property, and a Category sibling
routing the color property to its own tab. -/
def sampleObject : BoundObject :=
  { props := [
      ⟨"integerValue", .tInt, true, .intV 42⟩,
      ⟨"doubleValue", .tDouble, true, .realV 3⟩,
      ⟨"stringValue", .tString, true, .strV "Default Text"⟩,
      ⟨"colorValue", .tColor, true, .colorV ⟨"#0000ff"⟩⟩,
      ⟨"boolValue", .tBool, true, .boolV true⟩,
      ⟨"mode", .tEnum ["Low", "High"], true, .enumV 1⟩,
      ⟨"integerDisplay", .tString, false, .strV "Integer Setting"⟩,
      ⟨"matrixValue", .tOther "QMatrix4x4", true, .varV ""⟩]
    dynStr := [("colorValueCategory", "Appearance"),
      ("integerValueDisplay", "Integer Setting")]
    dynNum := [("integerValueMin", 0), ("integerValueMax", 100)] }

/-- Witness for C5 on the sample object: two tabs (default and the color
category) and six Parameters — one per writable supported property, none
for the unsupported or non-writable ones. -/
theorem c5_binder_type_coverage_witness :
    (bindObjectToEditor mkParamsEditor sampleObject "Properties").tabTitles =
      ["Properties", "Appearance"] ∧
    ((bindObjectToEditor mkParamsEditor sampleObject "Properties").allParams.map
      List.length).sum = 6 := by
  have h := c5_binder_type_coverage sampleObject "Properties"
  exact ⟨h.1.trans (by decide), h.2.2.2.trans (by decide)⟩

end ParamEditor
